import Mathlib

/-!
# instantValidate: a shallow embedding of `js/validate/instant.validate.js`

The jQuery plugin keeps one module-level `options` object, a table `methods`
(`init`, `validate`, `clear`, `isValid`, `setOnChange`) and a table `plugins`
of built-in rules (`notEmpty`, `length`, `interval`, `regex`, `compare`).

Modelling conventions.

* A JavaScript object used as a mapping (`options.config`, one field's rules,
  `errorsStack`) is the list of its own enumerable properties in the order
  `for ... in` visits them; keys of a real object are pairwise different.
* Property reads on the object literals `plugins` and `errorsStack` go through
  the prototype chain, so a key that names a member of `Object.prototype`
  finds that member when the object has no own property of that name.
* The value of a field is the string its `val()` reads; `getField` finds a
  field for every name of the configuration.
* A number of a rule configuration is finite and is given as the rational its
  Number value denotes; the result of `parseFloat` may also be `NaN` or an
  infinity.  `parseFloat` rounds the
  decimal it reads to the nearest binary64 value (ties to even, overflow to an
  infinity, underflow to zero); a finite Number is the rational it denotes, and
  comparisons of Numbers are the comparisons of these rationals.
* A custom rule is a function of the field name and the value, without effects.
* `RegExp` is a capability of the host: it is a parameter of the model.
* An exception is a value: operations that may throw return `Except JSError`,
  and `validate` returns the state it leaves behind together with its outcome.

* `$.extend` and `$.error` are jQuery's: the merge copies every key the caller's
  object defines, and what `$.error` does (the stock one throws) is a parameter.

The definitions come first (JavaScript values, `parseFloat`, the data model,
`plugins`, `methods`, the entry point, then the vocabulary of the statements),
the theorems follow: the built-in rules, one rule of one field, the whole
pass, names inherited from `Object.prototype`, the general results for
configurations whose names are not inherited, `clear`, the invariants of the
report and its rendering, initialisation and the entry point.
-/

namespace InstantValidate

/-! ## JavaScript values -/

/-- Exceptions the modelled code can raise. -/
inductive JSError
  | typeError
  | syntaxError
  deriving DecidableEq, Repr

deriving instance DecidableEq for Except

/-- Numbers as produced by `parseFloat`. -/
inductive JSNum
  | nan
  | posInf
  | negInf
  | fin (q : ℚ)
  deriving DecidableEq, Repr

/-- Values a custom rule function may return. -/
inductive JSVal
  | undefined
  | null
  | bool (b : Bool)
  | num (n : JSNum)
  | str (s : String)
  | object
  deriving DecidableEq, Repr

/-- ToBoolean on numbers: `NaN` and zero are falsy. -/
def JSNum.truthy : JSNum → Bool
  | .nan => false
  | .posInf => true
  | .negInf => true
  | .fin q => decide (q ≠ 0)

/-- ToBoolean. -/
def JSVal.truthy : JSVal → Bool
  | .undefined => false
  | .null => false
  | .bool b => b
  | .num n => n.truthy
  | .str s => decide (s ≠ "")
  | .object => true

/-- The test `typeof v == 'string'`. -/
def JSVal.isString : JSVal → Bool
  | .str _ => true
  | _ => false

/-- `isNaN(v)` on a number. -/
def JSNum.isNaN : JSNum → Bool
  | .nan => true
  | _ => false

/-- `v >= q` for a finite `q`. -/
def JSNum.ge : JSNum → ℚ → Bool
  | .nan, _ => false
  | .posInf, _ => true
  | .negInf, _ => false
  | .fin v, q => decide (q ≤ v)

/-- `v <= q` for a finite `q`. -/
def JSNum.le : JSNum → ℚ → Bool
  | .nan, _ => false
  | .posInf, _ => false
  | .negInf, _ => true
  | .fin v, q => decide (v ≤ q)

/-- `v > q` for a finite `q`. -/
def JSNum.gt : JSNum → ℚ → Bool
  | .nan, _ => false
  | .posInf, _ => true
  | .negInf, _ => false
  | .fin v, q => decide (q < v)

/-- `v < q` for a finite `q`. -/
def JSNum.lt : JSNum → ℚ → Bool
  | .nan, _ => false
  | .posInf, _ => false
  | .negInf, _ => true
  | .fin v, q => decide (v < q)

/-- `v == q` and `v === q` for a finite number `q` (both operands are numbers). -/
def JSNum.eq : JSNum → ℚ → Bool
  | .fin v, q => decide (v = q)
  | _, _ => false

/-- `v != q` for a finite number `q`: the negation of `==`. -/
def JSNum.ne (v : JSNum) (q : ℚ) : Bool := !(v.eq q)

/-- The `length` of a string: its number of UTF-16 code units. -/
def jsLength (s : String) : Nat :=
  s.toList.foldl (fun n c => n + (if c.val < 0x10000 then 1 else 2)) 0

/-! ## `parseFloat` -/

/-- StrWhiteSpaceChar: white space and line terminators skipped by `parseFloat`. -/
def isStrWhiteSpaceChar (c : Char) : Bool :=
  c.toNat ∈ [0x09, 0x0A, 0x0B, 0x0C, 0x0D, 0x20, 0xA0, 0x1680, 0x2028, 0x2029,
    0x202F, 0x205F, 0x3000, 0xFEFF] || (0x2000 ≤ c.toNat && c.toNat ≤ 0x200A)

/-- The longest run of decimal digits at the head of the text, and the rest. -/
def takeDigits : List Char → List Nat × List Char
  | [] => ([], [])
  | c :: cs =>
    if c.isDigit then
      ((c.toNat - 48) :: (takeDigits cs).1, (takeDigits cs).2)
    else ([], c :: cs)

/-- The number written by a run of decimal digits. -/
def digitsValue (ds : List Nat) : Nat :=
  ds.foldl (fun a d => 10 * a + d) 0

/-- An optional sign at the head of the text: whether it is `-`, and the rest. -/
def takeSign : List Char → Bool × List Char
  | '-' :: r => (true, r)
  | '+' :: r => (false, r)
  | cs => (false, cs)

/-- The ExponentPart at the head of the text, 0 when there is none. -/
def exponentPart : List Char → Int
  | c :: r =>
    if c = 'e' ∨ c = 'E' then
      let ds := (takeDigits (takeSign r).2).1
      if ds = [] then 0
      else if (takeSign r).1 then -(digitsValue ds : Int) else (digitsValue ds : Int)
    else 0
  | [] => 0

/-- The number of halvings that bring `n` below 2, at most `fuel` of them: with
`fuel = n` this is the floor of the binary logarithm of a positive `n`. -/
def log2Fuel : Nat → Nat → Nat
  | 0, _ => 0
  | fuel + 1, n => if n < 2 then 0 else log2Fuel fuel (n / 2) + 1

/-- The floor of the binary logarithm of the positive rational `num / den`. -/
def floorLog2 (num den : Nat) : Int :=
  let e0 : Int := (log2Fuel num num : Int) - (log2Fuel den den : Int)
  if 0 ≤ e0 then (if den * 2 ^ e0.toNat ≤ num then e0 else e0 - 1)
  else (if den ≤ num * 2 ^ (-e0).toNat then e0 else e0 - 1)

/-- The integer nearest to `a / d`, the even one of two that are equally near. -/
def roundHalfEven (a d : Nat) : Nat :=
  if 2 * (a % d) < d then a / d
  else if d < 2 * (a % d) then a / d + 1
  else if (a / d) % 2 = 0 then a / d
  else a / d + 1

/-- The Number value of the non-negative rational `num / den`: the nearest
binary64 value, ties to the even significand.  With `e` the binary exponent
(at least -1022, below that the value is subnormal) the value is rounded to a
multiple of `2 ^ (e - 52)`; a result that reaches `2 ^ 1024` (exponent 1024 or
more, or exponent 1023 with the significand rounded up to `2 ^ 53`) is
`Infinity`; a value below half the least subnormal rounds to 0. -/
def toBinary64 (num den : Nat) : JSNum :=
  if num = 0 then .fin 0
  else
    let e : Int := max (floorLog2 num den) (-1022)
    let shift : Int := e - 52
    if 0 ≤ shift then
      let m := roundHalfEven num (den * 2 ^ shift.toNat)
      if 1024 ≤ e ∨ (e = 1023 ∧ m = 2 ^ 53) then .posInf
      else .fin ((m * 2 ^ shift.toNat : Nat) : ℚ)
    else
      .fin (mkRat (roundHalfEven (num * 2 ^ (-shift).toNat) den : Nat) (2 ^ (-shift).toNat))

/-- The Number value of the decimal literal with digits `m` and decimal exponent
`k`, that is of `m * 10 ^ k`. -/
def scale10 (m : Nat) (k : Int) : JSNum :=
  if 0 ≤ k then toBinary64 (m * 10 ^ k.toNat) 1 else toBinary64 m (10 ^ (-k).toNat)

/-- Unary minus on numbers. -/
def JSNum.neg : JSNum → JSNum
  | .nan => .nan
  | .posInf => .negInf
  | .negInf => .posInf
  | .fin q => .fin (-q)

/-- The global `parseFloat`: leading white space is skipped, the longest prefix
that is a StrDecimalLiteral is read and its value is rounded to the nearest
Number; `NaN` when there is no such prefix. -/
def parseFloat (s : String) : JSNum :=
  let cs := s.toList.dropWhile isStrWhiteSpaceChar
  let neg := (takeSign cs).1
  let body := (takeSign cs).2
  if "Infinity".toList.isPrefixOf body then (if neg then .negInf else .posInf)
  else
    let ip := takeDigits body
    let fp : List Nat × List Char :=
      match ip.2 with
      | '.' :: r => takeDigits r
      | r => ([], r)
    if ip.1 = [] ∧ fp.1 = [] then .nan
    else
      let v := scale10 (digitsValue (ip.1 ++ fp.1)) (exponentPart fp.2 - (fp.1.length : Int))
      if neg then v.neg else v

/-! ## Data model -/

/-- Parameters of one built-in rule on one field; each attribute may be absent. -/
structure RuleConfig where
  min : Option ℚ := none
  max : Option ℚ := none
  pattern : Option String := none
  operator : Option String := none
  etalon : Option ℚ := none
  message : Option String := none

/-- The value stored under a rule name: a custom function, called as
`pluginConfig(fieldName, value, pluginConfig)`, or a rule configuration. -/
inductive PluginConfig
  | func (f : String → String → JSVal)
  | config (c : RuleConfig)

/-- FieldRules: the rules of one field, in enumeration order. -/
abbrev FieldRules := List (String × PluginConfig)

/-- ValidationConfig: field name to rules, in enumeration order. -/
abbrev ValidationConfig := List (String × FieldRules)

/-- The object `getField` returns for a field: the matched input, with the
string its `val()` reads. -/
structure Field where
  name : String
  val : String
  deriving DecidableEq, Repr

/-- ErrorEntry: `{object: field, messages: [...]}`. -/
structure ErrorEntry where
  object : Field
  messages : List String
  deriving DecidableEq, Repr

/-- The local `errorsStack` of `validate`: its own properties, oldest first. -/
abbrev ErrorsStack := List (String × ErrorEntry)

/-- What `options.form` holds: the literal `{}` of the module, or the jQuery
object stored by `init`. -/
inductive Form
  | plain
  | jquery
  deriving DecidableEq, Repr

/-- The module-level `options` object. -/
structure Options where
  form : Form := .plain
  config : ValidationConfig := []
  isValid : Bool := false
  defaultErrorMessage : String := "Validation result negative"
  getField : String → Field
  onChange : Option Nat := none

/-- Content of one rendered `div.iv-error-container`. -/
inductive ErrorContent
  | html (message : String)
  | list (items : List String)
  deriving DecidableEq, Repr

/-- The error markup inside the form: the containers appended next to fields
(each with the name of its field) and the fields carrying `iv-error-field`. -/
structure Dom where
  containers : List (String × ErrorContent) := []
  errorFields : List String := []
  deriving DecidableEq, Repr

/-- The state the methods work on: `options` and the markup of the page. -/
structure Engine where
  options : Options
  dom : Dom := {}

/-- The host's `RegExp`: for a pattern and a value, `none` when the pattern
does not compile and otherwise whether `value.match(pattern)` is non-null. -/
abbrev RegExpHost := String → String → Option Bool

/-! ## The built-in rules (`plugins`) -/

/-- The test `!x` on an optional number of a rule configuration: true when the
attribute is absent or zero. -/
def numFalsy : Option ℚ → Bool
  | none => true
  | some q => decide (q = 0)

/-- The test `!x` on an optional string attribute: absent or empty. -/
def strFalsy : Option String → Bool
  | none => true
  | some s => decide (s = "")

/-- Rule `notEmpty`: `value.length > 0`. -/
def plugins.notEmpty (_fieldName value : String) (_pluginConfig : RuleConfig) : Bool :=
  decide (jsLength value > 0)

/-- The variable `min` of `length` and `interval`:
`(!pluginConfig.min) ? 0 : pluginConfig.min`. -/
def minOf (pluginConfig : RuleConfig) : ℚ :=
  if numFalsy pluginConfig.min then 0 else pluginConfig.min.getD 0

/-- The variable `max` of `length` and `interval`:
`(!pluginConfig.min) ? false : pluginConfig.max`; `none` stands for the falsy
results `false` and `undefined`. -/
def maxOf (pluginConfig : RuleConfig) : Option ℚ :=
  if numFalsy pluginConfig.min then none else pluginConfig.max

/-- Rule `length`:
`max && (value.length >= min && value.max <= max) || !max && value.length >= min`.
A string has no property `max`: `value.max` is `undefined`, and
`undefined <= max` is false. -/
def plugins.length (_fieldName value : String) (pluginConfig : RuleConfig) : Bool :=
  let min := minOf pluginConfig
  let max := maxOf pluginConfig
  (!numFalsy max && (decide (min ≤ (jsLength value : ℚ)) && false))
    || (numFalsy max && decide (min ≤ (jsLength value : ℚ)))

/-- Rule `interval`:
`max && value >= min && value <= max || !max && value >= min`
on the parsed value, `NaN` replaced by 0. -/
def plugins.interval (_fieldName value : String) (pluginConfig : RuleConfig) : Bool :=
  let value := if (parseFloat value).isNaN then JSNum.fin 0 else parseFloat value
  let min := minOf pluginConfig
  let max := maxOf pluginConfig
  (!numFalsy max && value.ge min && value.le (max.getD 0))
    || (numFalsy max && value.ge min)

/-- Rule `regex`: `value.match(new RegExp(pattern))`, the pattern defaulting to
the empty one; `new RegExp` throws a SyntaxError on a pattern that does not
compile. -/
def plugins.regex (rx : RegExpHost) (_fieldName value : String) (pluginConfig : RuleConfig) :
    Except JSError Bool :=
  let pattern := if strFalsy pluginConfig.pattern then "" else pluginConfig.pattern.getD ""
  match rx pattern value with
  | none => .error .syntaxError
  | some b => .ok b

/-- Rule `compare`: the `switch` on the operator. -/
def plugins.compare (_fieldName value : String) (pluginConfig : RuleConfig) : Bool :=
  let value := parseFloat value
  let operator := if strFalsy pluginConfig.operator then "=" else pluginConfig.operator.getD "="
  let etalon : ℚ := if numFalsy pluginConfig.etalon then 0 else pluginConfig.etalon.getD 0
  if operator = "=" then value.eq etalon
  else if operator = "===" then value.eq etalon
  else if operator = ">=" then value.ge etalon
  else if operator = "<=" then value.le etalon
  else if operator = ">" then value.gt etalon
  else if operator = "<" then value.lt etalon
  else if operator = "!=" then value.ne etalon
  else value.eq etalon

/-- The own properties of the object `plugins`. -/
def pluginNames : List String := ["notEmpty", "length", "interval", "regex", "compare"]

/-- The properties of `Object.prototype` (ECMAScript, with Annex B): what a
property read on a plain object finds when the object has no own property of
that name.  Every one of them is truthy. -/
def objectPrototypeKeys : List String :=
  ["constructor", "toString", "toLocaleString", "valueOf", "hasOwnProperty",
   "isPrototypeOf", "propertyIsEnumerable", "__proto__", "__defineGetter__",
   "__defineSetter__", "__lookupGetter__", "__lookupSetter__"]

/-- Truthiness of `plugins[pluginName](fieldName, value, pluginConfig)` when the
name resolves to a member of `Object.prototype`, called with `this = plugins`:
`constructor` wraps the field name in a String object, `toString`,
`toLocaleString` and `valueOf` return a non-empty string or `plugins` itself,
`hasOwnProperty` and `propertyIsEnumerable` test the field name against the own
properties of `plugins`, `isPrototypeOf` of a string is false,
`__lookupGetter__` and `__lookupSetter__` find an accessor only for
`__proto__`, `__defineGetter__` and `__defineSetter__` reject the string
`value` as an accessor function, and `__proto__` is an object, not a function. -/
def inheritedCall (pluginName fieldName : String) : Except JSError Bool :=
  if pluginName = "hasOwnProperty" ∨ pluginName = "propertyIsEnumerable" then
    .ok (decide (fieldName ∈ pluginNames))
  else if pluginName = "isPrototypeOf" then .ok false
  else if pluginName = "__lookupGetter__" ∨ pluginName = "__lookupSetter__" then
    .ok (decide (fieldName = "__proto__"))
  else if pluginName = "__proto__" ∨ pluginName = "__defineGetter__"
      ∨ pluginName = "__defineSetter__" then .error .typeError
  else .ok true

/-- The read `plugins[pluginName]`: `none` when it is `undefined`, otherwise
the truthiness of the call `plugins[pluginName](fieldName, value, pluginConfig)`
or the exception it throws. -/
def plugins (rx : RegExpHost) (pluginName : String) :
    Option (String → String → RuleConfig → Except JSError Bool) :=
  if pluginName = "notEmpty" then some (fun f v c => .ok (plugins.notEmpty f v c))
  else if pluginName = "length" then some (fun f v c => .ok (plugins.length f v c))
  else if pluginName = "interval" then some (fun f v c => .ok (plugins.interval f v c))
  else if pluginName = "regex" then some (plugins.regex rx)
  else if pluginName = "compare" then some (fun f v c => .ok (plugins.compare f v c))
  else if pluginName ∈ objectPrototypeKeys then some (fun f _ _ => inheritedCall pluginName f)
  else none

/-! ## The methods -/

/-- Method `clear`: removes every `.iv-error-container` of the form and the class
`iv-error-field`; `options.form.find` is not a function while `options.form`
is still the literal `{}`. -/
def methods.clear (s : Engine) : Except JSError Engine :=
  match s.options.form with
  | .plain => .error .typeError
  | .jquery => .ok { s with dom := { containers := [], errorFields := [] } }

/-- Method `isValid`. -/
def methods.isValid (s : Engine) : Bool := s.options.isValid

/-- Appends a message to the messages of the entry stored under a key. -/
def pushMessage (fieldName message : String) : ErrorsStack → ErrorsStack
  | [] => []
  | (k, e) :: rest =>
    if k = fieldName then (k, { e with messages := e.messages ++ [message] }) :: rest
    else (k, e) :: pushMessage fieldName message rest

/-- The statements
`if (!errorsStack[fieldName]) errorsStack[fieldName] = {object: field, messages : []};`
`errorsStack[fieldName].messages.push(message);`.
Without an own property, a field name that is a member of `Object.prototype`
reads that (truthy) member, no entry is created, and `.messages` of the member
is `undefined`: the `push` throws a TypeError. -/
def pushError (errorsStack : ErrorsStack) (fieldName : String) (field : Field)
    (message : String) : Except JSError ErrorsStack :=
  if (errorsStack.lookup fieldName).isSome then
    .ok (pushMessage fieldName message errorsStack)
  else if fieldName ∈ objectPrototypeKeys then .error .typeError
  else .ok (errorsStack ++ [(fieldName, { object := field, messages := [message] })])

/-- Body of the inner loop of `validate` (one rule of one field). -/
def validateRule (rx : RegExpHost) (o : Options) (fieldName : String) (field : Field)
    (errorsStack : ErrorsStack) (rule : String × PluginConfig) : Except JSError ErrorsStack :=
  let value := field.val
  match rule.2 with
  | .func f =>
    let result := f fieldName value
    if !result.truthy || result.isString then
      let message :=
        if result.truthy then
          match result with
          | .str s => s
          | _ => o.defaultErrorMessage
        else o.defaultErrorMessage
      pushError errorsStack fieldName field message
    else .ok errorsStack
  | .config pluginConfig =>
    match plugins rx rule.1 with
    | none => .ok errorsStack
    | some plugin =>
      match plugin fieldName value pluginConfig with
      | .error e => .error e
      | .ok result =>
        if !result then
          let message :=
            if strFalsy pluginConfig.message then o.defaultErrorMessage
            else pluginConfig.message.getD o.defaultErrorMessage
          pushError errorsStack fieldName field message
        else .ok errorsStack

/-- The inner loop of `validate`: the rules of one field, in order. -/
def validateField (rx : RegExpHost) (o : Options) (fieldName : String) (field : Field) :
    ErrorsStack → FieldRules → Except JSError ErrorsStack
  | errorsStack, [] => .ok errorsStack
  | errorsStack, rule :: rest =>
    match validateRule rx o fieldName field errorsStack rule with
    | .error e => .error e
    | .ok errorsStack1 => validateField rx o fieldName field errorsStack1 rest

/-- The outer loop of `validate`: the fields of the configuration, in order. -/
def validateFields (rx : RegExpHost) (o : Options) :
    ErrorsStack → ValidationConfig → Except JSError ErrorsStack
  | errorsStack, [] => .ok errorsStack
  | errorsStack, (fieldName, validateConfig) :: rest =>
    match validateField rx o fieldName (o.getField fieldName) errorsStack validateConfig with
    | .error e => .error e
    | .ok errorsStack1 => validateFields rx o errorsStack1 rest

/-- The container built for one entry: one message is set as the content, any
other number of messages becomes a list with one item per message. -/
def errorContainer (data : ErrorEntry) : ErrorContent :=
  match data.messages with
  | [m] => .html m
  | ms => .list ms

/-- The rendering loop of `validate` over `errorsStack`. -/
def renderErrors : Dom → ErrorsStack → Dom
  | dom, [] => dom
  | dom, (_, data) :: rest =>
    renderErrors
      { containers := dom.containers ++ [(data.object.name, errorContainer data)],
        errorFields := dom.errorFields ++ [data.object.name] }
      rest

/-- Method `validate`.  The result pairs the state the call leaves behind with
the exception that ended it or the `errorsStack` it built. -/
def methods.validate (rx : RegExpHost) (s : Engine) : Engine × Except JSError ErrorsStack :=
  let s0 : Engine := { s with options := { s.options with isValid := false } }
  match methods.clear s0 with
  | .error e => (s0, .error e)
  | .ok s1 =>
    match validateFields rx s1.options [] s1.options.config with
    | .error e => (s1, .error e)
    | .ok errorsStack =>
      if errorsStack.length = 0 then
        ({ s1 with options := { s1.options with isValid := true } }, .ok errorsStack)
      else
        ({ options := { s1.options with isValid := false },
           dom := renderErrors s1.dom errorsStack }, .ok errorsStack)

/-! ## Initialisation and the entry point -/

/-- The object a caller passes to `init`, as far as the option keys go: a key
that is absent or `undefined` is `none`.  The key `form` is left out, `init`
overwrites it right after the merge; keys that are no options are copied by
the merge as well and never read. -/
structure CallerConfig where
  config : Option ValidationConfig := none
  isValid : Option Bool := none
  defaultErrorMessage : Option String := none
  getField : Option (String → Field) := none
  onChange : Option (Option Nat) := none

/-- The call `$.extend(options, config)`: every key the caller's object defines
is written over the key of `options`, every other key of `options` stays. -/
def extend (options : Options) (config : CallerConfig) : Options :=
  { options with
    config := config.config.getD options.config,
    isValid := config.isValid.getD options.isValid,
    defaultErrorMessage := config.defaultErrorMessage.getD options.defaultErrorMessage,
    getField := config.getField.getD options.getField,
    onChange := config.onChange.getD options.onChange }

/-- An event handler bound to a field: the field, the event (`keyup` or
`change`) and the callback it calls (`none` when what was passed is not a
function). -/
structure Handler where
  field : String
  event : String
  callback : Option Nat
  deriving DecidableEq, Repr

/-- The page the plugin lives in: the engine state and the handlers bound to
fields. -/
structure Page where
  engine : Engine
  handlers : List Handler := []

/-- The handlers `setOnChange` binds: for every field of the configuration, in
order, one for `keyup` and one for `change`. -/
def handlersFor (getField : String → Field) (onChange : Option Nat) :
    ValidationConfig → List Handler
  | [] => []
  | (fieldName, _) :: rest =>
    { field := (getField fieldName).name, event := "keyup", callback := onChange }
      :: { field := (getField fieldName).name, event := "change", callback := onChange }
      :: handlersFor getField onChange rest

/-- Method `setOnChange`: binds the callback to every field of the configuration.
Every field is found (`getField` returns a field for every name), so the test
`field.length == 0` skips none. -/
def methods.setOnChange (onChange : Option Nat) (p : Page) : Page :=
  { p with handlers := p.handlers ++
      handlersFor p.engine.options.getField onChange p.engine.options.config }

/-- Method `init`: the caller's object is merged into the module-level `options`,
the form is stored, and a configured change callback is bound.  A first
argument that is no object (absent, `undefined`, an empty string) merges
nothing. -/
def methods.init (config : Option CallerConfig) (p : Page) : Page :=
  let merged : Options :=
    match config with
    | some c => extend p.engine.options c
    | none => p.engine.options
  let options : Options := { merged with form := .jquery }
  let p1 : Page := { p with engine := { p.engine with options := options } }
  match options.onChange with
  | some onChange => methods.setOnChange (some onChange) p1
  | none => p1

/-- The state of the module before any call: the literal `options`, whose
`getField` looks fields up in the form. -/
def initialPage (find : String → Field) : Page :=
  { engine := { options := { getField := find } } }

/-- The own properties of the object `methods`. -/
def methodNames : List String := ["init", "validate", "clear", "isValid", "setOnChange"]

/-- The first argument of the entry point: nothing, a string, or an object. -/
inductive MethodArg
  | absent
  | name (s : String)
  | object (c : CallerConfig)

/-- The second argument of the entry point, when there is one: an object or a
function. -/
inductive RestArg
  | object (c : CallerConfig)
  | func (id : Nat)

/-- Values the entry point returns: the jQuery object it was called on, a
boolean, `undefined`, a string. -/
inductive RetVal
  | this
  | bool (b : Bool)
  | undefined
  | str (s : String)
  deriving DecidableEq, Repr

/-- How a call of the entry point ends: with a value, with an exception of the
engine, with the `Error` the stock `$.error` throws, or as the named member of
`Object.prototype` ends when applied to the jQuery object and the remaining
arguments. -/
inductive Completion
  | returned (v : RetVal)
  | threw (e : JSError)
  | raised (message : String)
  | inherited (name : String)
  deriving DecidableEq, Repr

/-- The host's `$.error`: jQuery's stock function throws `new Error(message)`; a
page may replace it by a function that returns. -/
inductive ErrorHook
  | throws
  | returns
  deriving DecidableEq, Repr

/-- A call of the entry point: the page it leaves, the messages it handed to
`$.error`, and how it ended. -/
structure CallResult where
  page : Page
  reported : List String
  completion : Completion

/-- The call `methods[name].apply(this, rest)` for a name that resolves to a member
of `Object.prototype`: `toString` and `toLocaleString` give the string of a
plain object, `valueOf` gives the jQuery object, `__proto__` is an object
without `apply`; none of the members touches `options`. -/
def inheritedMethod (name : String) : Completion :=
  if name = "toString" ∨ name = "toLocaleString" then .returned (.str "[object Object]")
  else if name = "valueOf" then .returned .this
  else if name = "__proto__" then .threw .typeError
  else .inherited name

/-- The object argument of `init` among the remaining arguments. -/
def restConfig : Option RestArg → Option CallerConfig
  | some (.object c) => some c
  | _ => none

/-- The function argument of `setOnChange` among the remaining arguments. -/
def restCallback : Option RestArg → Option Nat
  | some (.func id) => some id
  | _ => none

/-- The entry point `$.fn.instantValidate`: a first argument that `methods[method]`
resolves is applied to the remaining arguments, an object or a falsy first
argument goes to `init` with all arguments, anything else is handed to
`$.error` and, when that returns, answered with `false`. -/
def instantValidate (rx : RegExpHost) (hook : ErrorHook) (method : MethodArg)
    (rest : Option RestArg) (p : Page) : CallResult :=
  match method with
  | .absent => { page := methods.init none p, reported := [], completion := .returned .this }
  | .object c =>
    { page := methods.init (some c) p, reported := [], completion := .returned .this }
  | .name s =>
    if s = "init" then
      { page := methods.init (restConfig rest) p, reported := [], completion := .returned .this }
    else if s = "validate" then
      { page := { p with engine := (methods.validate rx p.engine).1 },
        reported := [],
        completion :=
          match (methods.validate rx p.engine).2 with
          | .ok _ => .returned .this
          | .error e => .threw e }
    else if s = "clear" then
      match methods.clear p.engine with
      | .ok engine =>
        { page := { p with engine := engine }, reported := [], completion := .returned .this }
      | .error e => { page := p, reported := [], completion := .threw e }
    else if s = "isValid" then
      { page := p, reported := [],
        completion := .returned (.bool (methods.isValid p.engine)) }
    else if s = "setOnChange" then
      { page := methods.setOnChange (restCallback rest) p, reported := [],
        completion := .returned .undefined }
    else if s ∈ objectPrototypeKeys then
      { page := p, reported := [], completion := inheritedMethod s }
    else if s = "" then
      { page := methods.init none p, reported := [], completion := .returned .this }
    else
      let message := "Method named " ++ s ++ " does not exists in jQuery.instantValidate"
      { page := p, reported := [message],
        completion :=
          match hook with
          | .throws => .raised message
          | .returns => .returned (.bool false) }

/-! ## Vocabulary of the statements -/

/-- The caller's object whose keys are those of `c2` laid over those of `c1`. -/
def overlay (c1 c2 : CallerConfig) : CallerConfig :=
  { config := c2.config.orElse fun _ => c1.config,
    isValid := c2.isValid.orElse fun _ => c1.isValid,
    defaultErrorMessage := c2.defaultErrorMessage.orElse fun _ => c1.defaultErrorMessage,
    getField := c2.getField.orElse fun _ => c1.getField,
    onChange := c2.onChange.orElse fun _ => c1.onChange }

/-- The messages recorded for a field in an `errorsStack` (none without an entry). -/
def messagesOf (errorsStack : ErrorsStack) (fieldName : String) : List String :=
  match errorsStack.lookup fieldName with
  | some e => e.messages
  | none => []

/-- The message of a failing built-in rule as the specification words it: the
`message` of the rule configuration when present and non-empty, the default
message otherwise. -/
def resolvedMessage (defaultErrorMessage : String) (c : RuleConfig) : String :=
  match c.message with
  | some m => if m ≠ "" then m else defaultErrorMessage
  | none => defaultErrorMessage

/-- Whether a field/rule pair passes, in the words of the specification: a
custom rule passes when its result is truthy and not a string, a rule named
after one of the five built-in rules passes when that rule accepts the value
(for `regex`: the pattern compiles and matches), and a pair whose rule name is
none of the five and whose configuration is not a function counts as passing. -/
def specPairPasses (rx : RegExpHost) (fieldName value : String)
    (rule : String × PluginConfig) : Bool :=
  match rule.2 with
  | .func f => (f fieldName value).truthy && !(f fieldName value).isString
  | .config c =>
    if rule.1 = "notEmpty" then plugins.notEmpty fieldName value c
    else if rule.1 = "length" then plugins.length fieldName value c
    else if rule.1 = "interval" then plugins.interval fieldName value c
    else if rule.1 = "regex" then decide (plugins.regex rx fieldName value c = .ok true)
    else if rule.1 = "compare" then plugins.compare fieldName value c
    else true

/-- Every field/rule pair of the configuration passes against the values
`getField` reads. -/
def specAllPass (rx : RegExpHost) (o : Options) : Bool :=
  o.config.all fun fr =>
    fr.2.all fun rule => specPairPasses rx fr.1 (o.getField fr.1).val rule

/-- A rule whose name, when it comes with a rule configuration, is not a member
of `Object.prototype`. -/
def regularRule (rule : String × PluginConfig) : Bool :=
  match rule.2 with
  | .func _ => true
  | .config _ => decide (rule.1 ∉ objectPrototypeKeys)

/-- All rules of all fields are regular. -/
def regularRuleNames (config : ValidationConfig) : Bool :=
  config.all fun fr => fr.2.all regularRule

/-- The message a field/rule pair contributes, in the words of the
specification: nothing when the pair passes; for a failing custom rule the
string it returned when that is non-empty and the default message otherwise;
for a failing built-in rule the resolved message. -/
def specFailure (rx : RegExpHost) (defaultErrorMessage fieldName value : String)
    (rule : String × PluginConfig) : Option String :=
  if specPairPasses rx fieldName value rule then none
  else
    match rule.2 with
    | .func f =>
      match f fieldName value with
      | .str s => some (if s ≠ "" then s else defaultErrorMessage)
      | _ => some defaultErrorMessage
    | .config c => some (resolvedMessage defaultErrorMessage c)

/-- One message per failing rule of a field, in the order of the rules. -/
def specMessages (rx : RegExpHost) (defaultErrorMessage fieldName value : String)
    (rules : FieldRules) : List String :=
  rules.filterMap (specFailure rx defaultErrorMessage fieldName value)

/-- The entry of one field: none without messages. -/
def entryOf (fieldName : String) (field : Field) (messages : List String) : ErrorsStack :=
  if messages = [] then [] else [(fieldName, { object := field, messages := messages })]

/-- The report the specification describes for a list of fields: one entry per
field with a failing rule, in the order of the fields. -/
def specReportOf (rx : RegExpHost) (defaultErrorMessage : String) (getField : String → Field) :
    ValidationConfig → ErrorsStack
  | [] => []
  | (fieldName, rules) :: rest =>
    entryOf fieldName (getField fieldName)
        (specMessages rx defaultErrorMessage fieldName (getField fieldName).val rules)
      ++ specReportOf rx defaultErrorMessage getField rest

/-- The report the specification describes for the configuration. -/
def specReport (rx : RegExpHost) (o : Options) : ErrorsStack :=
  specReportOf rx o.defaultErrorMessage o.getField o.config

/-- No field is named like a member of `Object.prototype`. -/
def regularFieldNames (config : ValidationConfig) : Bool :=
  config.all fun fr => decide (fr.1 ∉ objectPrototypeKeys)

/-- The rule does not throw on the value: the pattern of a `regex` rule compiles. -/
def ruleCompiles (rx : RegExpHost) (fieldName value : String)
    (rule : String × PluginConfig) : Bool :=
  match rule.2 with
  | .func _ => true
  | .config c =>
    if rule.1 = "regex" then
      match plugins.regex rx fieldName value c with
      | .ok _ => true
      | .error _ => false
    else true

/-- No rule of the configuration throws on the values `getField` reads. -/
def allCompile (rx : RegExpHost) (o : Options) (config : ValidationConfig) : Bool :=
  config.all fun fr => fr.2.all (ruleCompiles rx fr.1 (o.getField fr.1).val)

/-- An outcome of the walk after which the validity flag stays false: an
exception, or an `errorsStack` with an entry. -/
def staysInvalid : Except JSError ErrorsStack → Prop
  | .ok es => es ≠ []
  | .error _ => True

/-- A form whose every field reads the given value, attached by `init`, with the
given configuration and the default options. -/
def formWith (value : String) (config : ValidationConfig) : Engine :=
  { options := { form := .jquery, config := config, getField := fun n => ⟨n, value⟩ } }

/-- The state a call of `clear` leaves behind; an exception leaves the state as
it was. -/
def afterClear (s : Engine) : Engine :=
  match methods.clear s with
  | .ok s1 => s1
  | .error _ => s

/-- The operations that may follow `validate` without another pass. -/
inductive Query
  | clear
  | isValid
  deriving DecidableEq, Repr

/-- The state after a sequence of `clear()` and `isValid()` calls. -/
def afterQueries : List Query → Engine → Engine
  | [], s => s
  | .clear :: rest, s => afterQueries rest (afterClear s)
  | .isValid :: rest, s => afterQueries rest s

/-- Every entry of an `errorsStack` holds at least one message. -/
def allNonEmpty (es : ErrorsStack) : Prop :=
  ∀ ke ∈ es, ke.2.messages ≠ []

/-- Every key of an `errorsStack` is one of the given field names. -/
def keysWithin (names : List String) (es : ErrorsStack) : Prop :=
  ∀ ke ∈ es, ke.1 ∈ names

/-- Every entry of an `errorsStack` refers to the field `getField` returns for
its key. -/
def objectsFrom (getField : String → Field) (es : ErrorsStack) : Prop :=
  ∀ ke ∈ es, ke.2.object = getField ke.1

/-- The numeric value `interval` works on: the parsed value, `NaN` read as 0. -/
def numericOf (value : String) : JSNum :=
  if (parseFloat value).isNaN then .fin 0 else parseFloat value

/-! ## The built-in rules -/

theorem foldl_units_ge (cs : List Char) (a : Nat) :
    a + cs.length ≤ cs.foldl (fun n c => n + (if c.val < 0x10000 then 1 else 2)) a := by
  induction cs generalizing a with
  | nil => simp
  | cons c cs ih =>
    simp only [List.foldl_cons, List.length_cons]
    have h := ih (a + (if c.val < 0x10000 then 1 else 2))
    have h1 : 1 ≤ (if c.val < 0x10000 then 1 else 2) := by split <;> omega
    omega

theorem jsLength_pos_iff (s : String) : 0 < jsLength s ↔ s ≠ "" := by
  constructor
  · intro h hs
    subst hs
    simp [jsLength] at h
  · intro hs
    have hne : s.toList ≠ [] := by
      intro h
      apply hs
      apply String.ext
      simpa using h
    have hlen : 0 < s.toList.length := List.length_pos.mpr hne
    have := foldl_units_ge s.toList 0
    unfold jsLength
    omega

/-- C9: `notEmpty` passes exactly when the value has length greater than 0, which
is exactly when the value is not the empty string; the registry resolves the
name `notEmpty` to this rule; it fails on "", passes on "a" and passes on a
value made of white space only. -/
theorem notEmpty_iff_length_pos :
    (∀ (fieldName value : String) (c : RuleConfig),
      plugins.notEmpty fieldName value c = true ↔ 0 < jsLength value) ∧
    (∀ value : String, 0 < jsLength value ↔ value ≠ "") ∧
    (∀ (rx : RegExpHost), ∃ p, plugins rx "notEmpty" = some p ∧
      ∀ (f v : String) (c : RuleConfig), p f v c = .ok (plugins.notEmpty f v c)) ∧
    plugins.notEmpty "login" "" {} = false ∧
    plugins.notEmpty "login" "a" {} = true ∧
    plugins.notEmpty "login" "  " {} = true := by
  refine ⟨?_, jsLength_pos_iff, ?_, by decide, by decide, by decide⟩
  · intro f v c
    simp [plugins.notEmpty]
  · intro rx
    exact ⟨_, by simp [plugins], fun _ _ _ => rfl⟩

theorem minOf_of_max_none (c : RuleConfig) : minOf c = c.min.getD 0 := by
  unfold minOf numFalsy
  cases h : c.min with
  | none => simp
  | some q =>
    by_cases hq : q = 0 <;> simp [hq]

/-- C7: when `max` is not set, `length` passes exactly when the length of the
value is at least `min` (0 when `min` is absent); with min 3 it fails on "ab"
and passes on "abc". -/
theorem length_without_max (fieldName value : String) (c : RuleConfig) (hmax : c.max = none) :
    (plugins.length fieldName value c = true ↔ c.min.getD 0 ≤ (jsLength value : ℚ)) ∧
    plugins.length "login" "ab" { min := some 3 } = false ∧
    plugins.length "login" "abc" { min := some 3 } = true := by
  refine ⟨?_, by decide, by decide⟩
  have hmaxOf : maxOf c = none := by
    unfold maxOf
    split <;> simp [hmax]
  simp [plugins.length, hmaxOf, numFalsy, minOf_of_max_none]

theorem length_without_max_witness :
    (plugins.length "login" "abc" { min := some 3 } = true ↔
      (some (3 : ℚ)).getD 0 ≤ (jsLength "abc" : ℚ)) ∧
    plugins.length "login" "ab" { min := some 3 } = false ∧
    plugins.length "login" "abc" { min := some 3 } = true :=
  length_without_max "login" "abc" { min := some 3 } rfl

theorem etalon_default (c : RuleConfig) :
    (if numFalsy c.etalon then (0 : ℚ) else c.etalon.getD 0) = c.etalon.getD 0 := by
  unfold numFalsy
  cases h : c.etalon with
  | none => simp
  | some q =>
    by_cases hq : q = 0 <;> simp [hq]

theorem operator_default (c : RuleConfig) :
    (if strFalsy c.operator then "=" else c.operator.getD "=") =
      if c.operator.getD "=" = "" then "=" else c.operator.getD "=" := by
  unfold strFalsy
  cases h : c.operator with
  | none => simp
  | some op => by_cases hop : op = "" <;> simp [hop]

set_option exponentiation.threshold 2000 in
set_option maxRecDepth 8000 in
/-- C8: with `e` the etalon (0 when absent) and the operator defaulting to `=`,
`compare` passes on a value that parses to the finite number `v` exactly when
`v` stands in the relation the operator names to `e` (`=` and `===` equality,
`>=`, `<=`, `>`, `<`, `!=` inequality), and for an operator outside the seven
exactly when `v = e`; a value that parses to `Infinity` passes exactly for
`>=`, `>` and `!=`, one that parses to `-Infinity` exactly for `<=`, `<` and
`!=`, and a value that parses to no number passes for `!=` alone.  With
operator `>=` and etalon 10 the rule passes on "10" and fails on "9".  The
parsed value is the rounded one: "9007199254740993" equals the etalon
9007199254740992, "1e-400" equals 0, and "1e400" is `Infinity`. -/
theorem compare_iff_relation (fieldName value : String) (c : RuleConfig) :
    (∀ v : ℚ, parseFloat value = .fin v →
      ((c.operator.getD "=" = "=" ∨ c.operator.getD "=" = "===") →
        (plugins.compare fieldName value c = true ↔ v = c.etalon.getD 0)) ∧
      (c.operator.getD "=" = ">=" →
        (plugins.compare fieldName value c = true ↔ c.etalon.getD 0 ≤ v)) ∧
      (c.operator.getD "=" = "<=" →
        (plugins.compare fieldName value c = true ↔ v ≤ c.etalon.getD 0)) ∧
      (c.operator.getD "=" = ">" →
        (plugins.compare fieldName value c = true ↔ c.etalon.getD 0 < v)) ∧
      (c.operator.getD "=" = "<" →
        (plugins.compare fieldName value c = true ↔ v < c.etalon.getD 0)) ∧
      (c.operator.getD "=" = "!=" →
        (plugins.compare fieldName value c = true ↔ v ≠ c.etalon.getD 0)) ∧
      (c.operator.getD "=" ∉ ["=", "===", ">=", "<=", ">", "<", "!="] →
        (plugins.compare fieldName value c = true ↔ v = c.etalon.getD 0))) ∧
    (parseFloat value = .posInf →
      (plugins.compare fieldName value c = true ↔ c.operator.getD "=" ∈ [">=", ">", "!="])) ∧
    (parseFloat value = .negInf →
      (plugins.compare fieldName value c = true ↔ c.operator.getD "=" ∈ ["<=", "<", "!="])) ∧
    (parseFloat value = .nan →
      (plugins.compare fieldName value c = true ↔ c.operator.getD "=" = "!=")) ∧
    plugins.compare "age" "10" { operator := some ">=", etalon := some 10 } = true ∧
    plugins.compare "age" "9" { operator := some ">=", etalon := some 10 } = false ∧
    (parseFloat "9007199254740993" = .fin 9007199254740992 ∧
      plugins.compare "id" "9007199254740993" { etalon := some 9007199254740992 } = true) ∧
    (parseFloat "1e-400" = .fin 0 ∧ plugins.compare "x" "1e-400" {} = true) ∧
    (parseFloat "1e400" = .posInf ∧
      plugins.compare "x" "1e400" { operator := some ">", etalon := some 10 } = true) := by
  refine ⟨?_, ?_, ?_, ?_, by decide, by decide, ⟨by decide, by decide⟩,
    ⟨by decide, by decide⟩, ⟨by decide, by decide⟩⟩
  · intro v hv
    refine ⟨?_, ?_, ?_, ?_, ?_, ?_, ?_⟩
    all_goals
      unfold plugins.compare
      simp only [hv, etalon_default]
      cases hop : c.operator with
      | none => simp [strFalsy, JSNum.eq, JSNum.ge, JSNum.le, JSNum.gt, JSNum.lt, JSNum.ne]
      | some op =>
        by_cases hempty : op = ""
        · subst hempty
          simp [strFalsy, JSNum.eq, JSNum.ge, JSNum.le, JSNum.gt, JSNum.lt, JSNum.ne]
        · simp only [strFalsy, hempty, decide_False, Option.getD_some, Bool.false_eq_true,
            if_false]
          intro h
          first
            | (rcases h with h | h <;> subst h <;> simp [JSNum.eq])
            | (subst h; simp [JSNum.eq, JSNum.ge, JSNum.le, JSNum.gt, JSNum.lt, JSNum.ne])
            | (simp only [List.mem_cons, List.mem_singleton, not_or, List.mem_nil_iff,
                or_false] at h
               simp [h, JSNum.eq])
  all_goals
    intro hv
    unfold plugins.compare
    simp only [hv, etalon_default, operator_default]
    by_cases h0 : c.operator.getD "=" = ""
    · simp [h0, JSNum.eq]
    · simp only [h0, if_false]
      by_cases h1 : c.operator.getD "=" = "="
      · simp [h1, JSNum.eq]
      by_cases h2 : c.operator.getD "=" = "==="
      · simp [h2, JSNum.eq]
      by_cases h3 : c.operator.getD "=" = ">="
      · simp [h3, JSNum.ge]
      by_cases h4 : c.operator.getD "=" = "<="
      · simp [h4, JSNum.le]
      by_cases h5 : c.operator.getD "=" = ">"
      · simp [h5, JSNum.gt]
      by_cases h6 : c.operator.getD "=" = "<"
      · simp [h6, JSNum.lt]
      by_cases h7 : c.operator.getD "=" = "!="
      · simp [h7, JSNum.ne, JSNum.eq]
      simp [h1, h2, h3, h4, h5, h6, h7, JSNum.eq]

/-- What `interval` computes: with a non-zero `min` and a non-zero `max` it is
the two-sided test, in every other case only the lower bound is tested. -/
theorem interval_eq (fieldName value : String) (c : RuleConfig) :
    plugins.interval fieldName value c =
      if numFalsy c.min = false ∧ numFalsy c.max = false then
        (numericOf value).ge (c.min.getD 0) && (numericOf value).le (c.max.getD 0)
      else (numericOf value).ge (c.min.getD 0) := by
  unfold plugins.interval maxOf
  rw [minOf_of_max_none]
  simp only [numericOf]
  by_cases hmin : numFalsy c.min = true
  · simp only [hmin, if_true]
    simp [numFalsy]
  · simp only [Bool.not_eq_true] at hmin
    by_cases hmax : numFalsy c.max = true
    · simp [hmin, hmax]
    · simp only [Bool.not_eq_true] at hmax
      simp [hmin, hmax]

/-- With a non-zero `min`, `interval` is the test of the specification: two-sided
for a non-zero `max`, the lower bound alone without `max`. -/
theorem interval_iff_of_min (fieldName value : String) (c : RuleConfig) (m v : ℚ)
    (hmin : c.min = some m) (hm : m ≠ 0) (hv : numericOf value = .fin v) :
    (∀ M, c.max = some M → M ≠ 0 →
      (plugins.interval fieldName value c = true ↔ m ≤ v ∧ v ≤ M)) ∧
    (c.max = none → (plugins.interval fieldName value c = true ↔ m ≤ v)) := by
  constructor
  · intro M hmax hM
    rw [interval_eq, hv]
    simp [numFalsy, hmin, hmax, hm, hM, JSNum.ge, JSNum.le]
  · intro hmax
    rw [interval_eq, hv]
    simp [numFalsy, hmin, hmax, hm, JSNum.ge]

theorem interval_iff_of_min_witness :
    plugins.interval "age" "3" { min := some 1, max := some 5 } = true ↔
      (1 : ℚ) ≤ 3 ∧ (3 : ℚ) ≤ 5 :=
  (interval_iff_of_min "age" "3" { min := some 1, max := some 5 } 1 3 rfl (by decide)
    (by decide)).1 5 rfl (by decide)

/-- C6: `interval` with only `max` set to 5 passes on "10": the parsed value is
10, which does not satisfy `0 ≤ 10 ≤ 5`.  With min 1 and max 5 the rule passes
on "3" and fails on "abc". -/
theorem interval_max_dropped_without_min :
    parseFloat "10" = .fin 10 ∧
    plugins.interval "age" "10" { max := some 5 } = true ∧
    ¬ ((0 : ℚ) ≤ 10 ∧ (10 : ℚ) ≤ 5) ∧
    plugins.interval "age" "3" { min := some 1, max := some 5 } = true ∧
    plugins.interval "age" "abc" { min := some 1, max := some 5 } = false := by
  refine ⟨by decide, by decide, by norm_num, by decide, by decide⟩

/-! ## Recording a failure -/

theorem lookup_pushMessage_self (fieldName message : String) (es : ErrorsStack) :
    (pushMessage fieldName message es).lookup fieldName =
      (es.lookup fieldName).map (fun e => { e with messages := e.messages ++ [message] }) := by
  induction es with
  | nil => simp [pushMessage]
  | cons kv rest ih =>
    obtain ⟨k, e⟩ := kv
    by_cases hk : k = fieldName
    · subst hk
      simp [pushMessage, List.lookup_cons]
    · have hk2 : (fieldName == k) = false := by
        simp only [beq_eq_false_iff_ne, ne_eq]
        exact fun h => hk h.symm
      simp [pushMessage, hk, List.lookup_cons, hk2, ih]

theorem lookup_pushMessage_other (fieldName message other : String) (es : ErrorsStack)
    (hne : other ≠ fieldName) :
    (pushMessage fieldName message es).lookup other = es.lookup other := by
  induction es with
  | nil => simp [pushMessage]
  | cons kv rest ih =>
    obtain ⟨k, e⟩ := kv
    by_cases hk : k = fieldName
    · subst hk
      have hk2 : (other == k) = false := by simp [hne]
      simp [pushMessage, List.lookup_cons, hk2]
    · by_cases ho : other = k
      · subst ho
        simp [pushMessage, hk, List.lookup_cons]
      · have hk2 : (other == k) = false := by simp [ho]
        simp [pushMessage, hk, List.lookup_cons, hk2, ih]

theorem lookup_append_new (es : ErrorsStack) (key other : String) (e : ErrorEntry) :
    (es ++ [(key, e)]).lookup other =
      match es.lookup other with
      | some x => some x
      | none => if other = key then some e else none := by
  induction es with
  | nil =>
    by_cases h : other = key
    · subst h
      simp [List.lookup_cons]
    · have h2 : (other == key) = false := by simp [h]
      simp [List.lookup_cons, h2, h]
  | cons kv rest ih =>
    obtain ⟨k, x⟩ := kv
    by_cases hk : other = k
    · subst hk
      simp [List.lookup_cons]
    · have h2 : (other == k) = false := by simp [hk]
      simp only [List.cons_append, List.lookup_cons, h2]
      exact ih

/-- When the append statements succeed, the messages of the field grow by
exactly the new message and the messages of every other field are untouched. -/
theorem pushError_messages (es es1 : ErrorsStack) (fieldName : String) (field : Field)
    (message : String) (h : pushError es fieldName field message = .ok es1) :
    messagesOf es1 fieldName = messagesOf es fieldName ++ [message] ∧
    ∀ other, other ≠ fieldName → messagesOf es1 other = messagesOf es other := by
  unfold pushError at h
  split at h
  · rename_i hsome
    injection h with h
    subst h
    constructor
    · unfold messagesOf
      rw [lookup_pushMessage_self]
      cases hl : es.lookup fieldName with
      | none => simp [hl] at hsome
      | some e => simp
    · intro other hne
      unfold messagesOf
      rw [lookup_pushMessage_other _ _ _ _ hne]
  · rename_i hnone
    split at h
    · exact absurd h (by simp)
    · injection h with h
      subst h
      have hl : es.lookup fieldName = none := by
        cases hl : es.lookup fieldName with
        | none => rfl
        | some e => simp [hl] at hnone
      constructor
      · unfold messagesOf
        rw [lookup_append_new, hl]
        simp
      · intro other hne
        unfold messagesOf
        rw [lookup_append_new]
        cases es.lookup other with
        | none => simp [hne]
        | some x => simp

/-- The append statements succeed for every field name that is not a member of
`Object.prototype`, and for every field that already has an entry. -/
theorem pushError_succeeds (es : ErrorsStack) (fieldName : String) (field : Field)
    (message : String)
    (h : (es.lookup fieldName).isSome = true ∨ fieldName ∉ objectPrototypeKeys) :
    ∃ es1, pushError es fieldName field message = .ok es1 := by
  unfold pushError
  by_cases hs : (es.lookup fieldName).isSome = true
  · exact ⟨pushMessage fieldName message es, by simp [hs]⟩
  · rcases h with h | h
    · exact absurd h hs
    · exact ⟨es ++ [(fieldName, { object := field, messages := [message] })], by simp [hs, h]⟩

/-! ## One rule of one field -/

/-- Interpretation of the value a custom rule returns.  `true` is a pass
and leaves `errorsStack` as it is; a falsy value (`false`, the empty string,
...) is a failure whose step is the append statement run once with the default
message; a non-empty string `s` is a failure whose step is the append statement
run once with `s`.  The append statement, when it succeeds, adds exactly that
one message to the messages of the field, and it succeeds for every field name
that is not a member of `Object.prototype`.  A custom rule returning
"too short" on the field `login` yields exactly one message, "too short". -/
theorem custom_rule_interpretation (rx : RegExpHost) (o : Options) (fieldName : String)
    (field : Field) (es : ErrorsStack) (pluginName : String) (f : String → String → JSVal) :
    (f fieldName field.val = .bool true →
      validateRule rx o fieldName field es (pluginName, .func f) = .ok es) ∧
    ((f fieldName field.val).truthy = false →
      validateRule rx o fieldName field es (pluginName, .func f) =
        pushError es fieldName field o.defaultErrorMessage) ∧
    (∀ s, f fieldName field.val = .str s → s ≠ "" →
      validateRule rx o fieldName field es (pluginName, .func f) =
        pushError es fieldName field s) ∧
    (∀ m es1, pushError es fieldName field m = .ok es1 →
      messagesOf es1 fieldName = messagesOf es fieldName ++ [m]) ∧
    (fieldName ∉ objectPrototypeKeys →
      ∀ m, ∃ es1, pushError es fieldName field m = .ok es1) ∧
    (JSVal.bool false).truthy = false ∧ (JSVal.str "").truthy = false ∧
    (methods.validate rx
      { options :=
          { form := .jquery,
            config := [("login", [("minLength", .func (fun _ v =>
              if jsLength v < 3 then .str "too short" else .bool true))])],
            getField := fun n => ⟨n, "ab"⟩ } }).2
      = .ok [("login", { object := ⟨"login", "ab"⟩, messages := ["too short"] })] := by
  refine ⟨?_, ?_, ?_, ?_, ?_, rfl, rfl, ?_⟩
  · intro h
    simp [validateRule, h, JSVal.truthy, JSVal.isString]
  · intro h
    unfold validateRule
    simp [h]
  · intro s h hs
    unfold validateRule
    simp [h, JSVal.truthy, JSVal.isString, hs]
  · intro m es1 h
    exact (pushError_messages es es1 fieldName field m h).1
  · intro h m
    exact pushError_succeeds es fieldName field m (Or.inr h)
  · rfl

/-- C4: when a rule the registry resolves returns a falsy result, the step is
the append statement run once with the `message` of the rule configuration
when that is present and non-empty and with the default message otherwise, so
any message appended is that one.  With the configuration
`login: notEmpty: (no parameters)` and the value "", `isValid()` is false after
`validate()` and the report has exactly one entry, for `login`, with exactly one
message, the default one. -/
theorem builtin_failure_message (rx : RegExpHost) (o : Options) (fieldName : String)
    (field : Field) (es : ErrorsStack) (pluginName : String) (c : RuleConfig)
    (p : String → String → RuleConfig → Except JSError Bool)
    (hp : plugins rx pluginName = some p) (hfail : p fieldName field.val c = .ok false) :
    validateRule rx o fieldName field es (pluginName, .config c) =
      pushError es fieldName field (resolvedMessage o.defaultErrorMessage c) ∧
    (∀ es1, validateRule rx o fieldName field es (pluginName, .config c) = .ok es1 →
      messagesOf es1 fieldName =
        messagesOf es fieldName ++ [resolvedMessage o.defaultErrorMessage c]) ∧
    (methods.isValid (methods.validate rx
      { options := { form := .jquery, config := [("login", [("notEmpty", .config {})])],
                     getField := fun n => ⟨n, ""⟩ } }).1 = false ∧
     (methods.validate rx
      { options := { form := .jquery, config := [("login", [("notEmpty", .config {})])],
                     getField := fun n => ⟨n, ""⟩ } }).2
       = .ok [("login", { object := ⟨"login", ""⟩,
                          messages := ["Validation result negative"] })]) := by
  have hstep : validateRule rx o fieldName field es (pluginName, .config c) =
      pushError es fieldName field (resolvedMessage o.defaultErrorMessage c) := by
    have hmsg : (if strFalsy c.message then o.defaultErrorMessage
        else c.message.getD o.defaultErrorMessage) = resolvedMessage o.defaultErrorMessage c := by
      unfold resolvedMessage strFalsy
      cases c.message with
      | none => simp
      | some m => by_cases hm : m = "" <;> simp [hm]
    unfold validateRule
    simp only [hp, hfail, hmsg]
    simp
  refine ⟨hstep, ?_, rfl, rfl⟩
  intro es1 h
  rw [hstep] at h
  exact (pushError_messages es es1 fieldName field _ h).1

theorem builtin_failure_message_witness :
    validateRule (fun _ _ => none) { getField := fun n => ⟨n, ""⟩ } "login" ⟨"login", ""⟩ []
        ("notEmpty", .config { message := some "Username is required" }) =
      pushError [] "login" ⟨"login", ""⟩ "Username is required" :=
  (builtin_failure_message (fun _ _ => none) { getField := fun n => ⟨n, ""⟩ } "login"
    ⟨"login", ""⟩ [] "notEmpty" { message := some "Username is required" }
    (fun f v c => .ok (plugins.notEmpty f v c)) rfl rfl).1

/-! ## The whole pass -/

/-- C10: `validate` is idempotent.  Run on the state a first call left behind,
it leaves that state as it is and produces the same outcome (the same
`errorsStack`, or the same exception), whatever the state before the first call
was; in particular the validity flag and the report are the same both times. -/
theorem validate_idempotent (rx : RegExpHost) (s : Engine) :
    methods.validate rx (methods.validate rx s).1 = methods.validate rx s ∧
    methods.isValid (methods.validate rx (methods.validate rx s).1).1 =
      methods.isValid (methods.validate rx s).1 ∧
    (methods.validate rx (methods.validate rx s).1).2 = (methods.validate rx s).2 := by
  have key : methods.validate rx (methods.validate rx s).1 = methods.validate rx s := by
    obtain ⟨o, dom⟩ := s
    obtain ⟨form, config, isValid, dflt, getField, onChange⟩ := o
    cases form with
    | plain => rfl
    | jquery =>
      have hstep : ∀ (b : Bool) (d : Dom),
          methods.validate rx ⟨⟨.jquery, config, b, dflt, getField, onChange⟩, d⟩ =
            match validateFields rx ⟨.jquery, config, false, dflt, getField, onChange⟩ []
                config with
            | .error e => (⟨⟨.jquery, config, false, dflt, getField, onChange⟩, {}⟩, .error e)
            | .ok es =>
              if es.length = 0 then
                (⟨⟨.jquery, config, true, dflt, getField, onChange⟩, {}⟩, .ok es)
              else
                (⟨⟨.jquery, config, false, dflt, getField, onChange⟩, renderErrors {} es⟩,
                  .ok es) := by
        intro b d
        rfl
      rw [hstep]
      cases hv : validateFields rx ⟨.jquery, config, false, dflt, getField, onChange⟩ []
          config with
      | error e => simp only [hstep, hv]
      | ok es =>
        by_cases hlen : es.length = 0
        · simp only [hlen, if_true, hstep, hv]
        · simp only [hlen, if_false, hstep, hv]
  exact ⟨key, by rw [key], by rw [key]⟩

/-! ## Names inherited from `Object.prototype` -/

/-- C5: the rule name `hasOwnProperty` is none of the five built-in rules and its
configuration is not a function, yet the registry read resolves it (to the
member inherited from `Object.prototype`), the member is invoked, it returns
false for the field `login`, and `validate` records the default message and
leaves the flag false; with that rule removed the report is empty and the flag
is true. -/
theorem inherited_rule_name_not_skipped (rx : RegExpHost) :
    "hasOwnProperty" ∉ pluginNames ∧
    (plugins rx "hasOwnProperty").isSome = true ∧
    (methods.validate rx (formWith "bob" [("login", [("hasOwnProperty", .config {})])])).2
      = .ok [("login", { object := ⟨"login", "bob"⟩,
                         messages := ["Validation result negative"] })] ∧
    methods.isValid
      (methods.validate rx (formWith "bob" [("login", [("hasOwnProperty", .config {})])])).1
      = false ∧
    (methods.validate rx (formWith "bob" [("login", [])])).2 = .ok [] ∧
    methods.isValid (methods.validate rx (formWith "bob" [("login", [])])).1 = true := by
  refine ⟨by decide, rfl, rfl, rfl, rfl, rfl⟩

/-- C1: with the rules `notEmpty` and `hasOwnProperty` (a name that is none of
the built-in rules, with a configuration that is not a function) on the field
`login` and the value "bob", every field/rule pair passes in the sense of the
specification, and the validity flag after `validate` is false. -/
theorem flag_false_though_all_pass (rx : RegExpHost) :
    specAllPass rx
      (formWith "bob"
        [("login", [("notEmpty", .config {}), ("hasOwnProperty", .config {})])]).options
      = true ∧
    methods.isValid
      (methods.validate rx
        (formWith "bob"
          [("login", [("notEmpty", .config {}), ("hasOwnProperty", .config {})])])).1
      = false := by
  exact ⟨rfl, rfl⟩

/-- C2: on a field named `constructor` with the value "" the rules `notEmpty` and
`length` with min 3 both fail, and `validate` ends with a TypeError at the
first append, so no entry and no message is built for the field; on a field
named `team` the same rules and value give one entry with the two messages in
configuration order. -/
theorem no_entry_for_inherited_field_name (rx : RegExpHost) :
    specPairPasses rx "constructor" ""
      ("notEmpty", .config { message := some "required" }) = false ∧
    specPairPasses rx "constructor" ""
      ("length", .config { min := some 3, message := some "too short" }) = false ∧
    (methods.validate rx (formWith ""
      [("constructor", [("notEmpty", .config { message := some "required" }),
                        ("length", .config { min := some 3, message := some "too short" })])])).2
      = .error .typeError ∧
    (methods.validate rx (formWith ""
      [("team", [("notEmpty", .config { message := some "required" }),
                 ("length", .config { min := some 3, message := some "too short" })])])).2
      = .ok [("team", { object := ⟨"team", ""⟩, messages := ["required", "too short"] })] := by
  refine ⟨rfl, rfl, rfl, rfl⟩

/-- C3: on a field named `constructor` a custom rule that returns the string
"too short", and one that returns `false`, add no message: `validate` ends with
a TypeError at the append, builds no report and renders nothing, and the flag
stays false.  On a field named `login` the same rules add exactly one message
each, "too short" and the default message, and a rule returning `true` adds
none. -/
theorem custom_rule_on_inherited_field_name (rx : RegExpHost) :
    (methods.validate rx (formWith "ab"
      [("constructor", [("minLength", .func (fun _ v =>
          if jsLength v < 3 then .str "too short" else .bool true))])])).2
      = .error .typeError ∧
    (methods.validate rx (formWith "ab"
      [("constructor", [("never", .func (fun _ _ => .bool false))])])).2
      = .error .typeError ∧
    (methods.validate rx (formWith "ab"
      [("constructor", [("minLength", .func (fun _ v =>
          if jsLength v < 3 then .str "too short" else .bool true))])])).1.dom
      = { containers := [], errorFields := [] } ∧
    (methods.validate rx (formWith "ab"
      [("login", [("minLength", .func (fun _ v =>
          if jsLength v < 3 then .str "too short" else .bool true))])])).2
      = .ok [("login", { object := ⟨"login", "ab"⟩, messages := ["too short"] })] ∧
    (methods.validate rx (formWith "ab"
      [("login", [("never", .func (fun _ _ => .bool false))])])).2
      = .ok [("login", { object := ⟨"login", "ab"⟩,
                         messages := ["Validation result negative"] })] ∧
    (methods.validate rx (formWith "ab"
      [("constructor", [("always", .func (fun _ _ => .bool true))])])).2 = .ok [] := by
  refine ⟨rfl, rfl, rfl, rfl, rfl, rfl⟩

/-! ## The validity flag, for regular rule names -/

theorem pushMessage_ne_nil (fieldName message : String) (es : ErrorsStack) (h : es ≠ []) :
    pushMessage fieldName message es ≠ [] := by
  cases es with
  | nil => exact absurd rfl h
  | cons kv rest =>
    obtain ⟨k, e⟩ := kv
    unfold pushMessage
    split <;> simp

theorem pushError_staysInvalid (es : ErrorsStack) (fieldName : String) (field : Field)
    (message : String) : staysInvalid (pushError es fieldName field message) := by
  unfold pushError
  split
  · rename_i hsome
    apply pushMessage_ne_nil
    intro hnil
    subst hnil
    simp at hsome
  · split
    · trivial
    · simp [staysInvalid]

theorem plugins_of_regular (rx : RegExpHost) (name : String)
    (hreg : name ∉ objectPrototypeKeys) :
    plugins rx name =
      if name = "notEmpty" then some (fun f v c => .ok (plugins.notEmpty f v c))
      else if name = "length" then some (fun f v c => .ok (plugins.length f v c))
      else if name = "interval" then some (fun f v c => .ok (plugins.interval f v c))
      else if name = "regex" then some (plugins.regex rx)
      else if name = "compare" then some (fun f v c => .ok (plugins.compare f v c))
      else none := by
  unfold plugins
  simp only [hreg, if_false]

/-- A regular rule that passes leaves `errorsStack` as it is. -/
theorem validateRule_of_pass (rx : RegExpHost) (o : Options) (fieldName : String)
    (field : Field) (es : ErrorsStack) (rule : String × PluginConfig)
    (hreg : regularRule rule = true)
    (hpass : specPairPasses rx fieldName field.val rule = true) :
    validateRule rx o fieldName field es rule = .ok es := by
  obtain ⟨name, pc⟩ := rule
  cases pc with
  | func f =>
    simp only [specPairPasses, Bool.and_eq_true, Bool.not_eq_true'] at hpass
    simp [validateRule, hpass.1, hpass.2]
  | config c =>
    simp only [regularRule, decide_eq_true_eq] at hreg
    simp only [specPairPasses] at hpass
    simp only [validateRule, plugins_of_regular rx name hreg]
    by_cases h1 : name = "notEmpty"
    · subst h1
      simp at hpass
      simp [hpass]
    by_cases h2 : name = "length"
    · subst h2
      simp at hpass
      simp [hpass]
    by_cases h3 : name = "interval"
    · subst h3
      simp at hpass
      simp [hpass]
    by_cases h4 : name = "regex"
    · subst h4
      simp at hpass
      simp [hpass]
    by_cases h5 : name = "compare"
    · subst h5
      simp at hpass
      simp [hpass]
    simp [h1, h2, h3, h4, h5]

/-- A regular rule that does not pass keeps the flag false. -/
theorem validateRule_of_fail (rx : RegExpHost) (o : Options) (fieldName : String)
    (field : Field) (es : ErrorsStack) (rule : String × PluginConfig)
    (hreg : regularRule rule = true)
    (hfail : specPairPasses rx fieldName field.val rule = false) :
    staysInvalid (validateRule rx o fieldName field es rule) := by
  obtain ⟨name, pc⟩ := rule
  cases pc with
  | func f =>
    simp only [specPairPasses, Bool.and_eq_false_iff, Bool.not_eq_false'] at hfail
    have hcond : (!(f fieldName field.val).truthy || (f fieldName field.val).isString) = true := by
      rcases hfail with h | h <;> simp [h]
    simp only [validateRule, hcond, if_true]
    exact pushError_staysInvalid _ _ _ _
  | config c =>
    simp only [regularRule, decide_eq_true_eq] at hreg
    simp only [specPairPasses] at hfail
    simp only [validateRule, plugins_of_regular rx name hreg]
    by_cases h1 : name = "notEmpty"
    · subst h1
      simp at hfail
      simp only [if_true, hfail, Bool.not_false]
      exact pushError_staysInvalid _ _ _ _
    by_cases h2 : name = "length"
    · subst h2
      simp at hfail
      simp only [h1, if_false, if_true, hfail, Bool.not_false]
      exact pushError_staysInvalid _ _ _ _
    by_cases h3 : name = "interval"
    · subst h3
      simp at hfail
      simp only [h1, h2, if_false, if_true, hfail, Bool.not_false]
      exact pushError_staysInvalid _ _ _ _
    by_cases h4 : name = "regex"
    · subst h4
      simp at hfail
      simp only [h1, h2, h3, if_false, if_true]
      cases hr : plugins.regex rx fieldName field.val c with
      | error e => trivial
      | ok b =>
        cases b with
        | true => exact absurd hr hfail
        | false =>
          simp only [Bool.not_false, if_true]
          exact pushError_staysInvalid _ _ _ _
    by_cases h5 : name = "compare"
    · subst h5
      simp at hfail
      simp only [h1, h2, h3, h4, if_false, if_true, hfail, Bool.not_false]
      exact pushError_staysInvalid _ _ _ _
    simp [h1, h2, h3, h4, h5] at hfail

/-- Once `errorsStack` has an entry, no rule brings the flag back. -/
theorem validateRule_of_ne_nil (rx : RegExpHost) (o : Options) (fieldName : String)
    (field : Field) (es : ErrorsStack) (rule : String × PluginConfig) (hes : es ≠ []) :
    staysInvalid (validateRule rx o fieldName field es rule) := by
  obtain ⟨name, pc⟩ := rule
  cases pc with
  | func f =>
    simp only [validateRule]
    by_cases hc : (!(f fieldName field.val).truthy || (f fieldName field.val).isString) = true
    · rw [if_pos hc]
      exact pushError_staysInvalid _ _ _ _
    · rw [if_neg hc]
      exact hes
  | config c =>
    simp only [validateRule]
    cases hp : plugins rx name with
    | none => exact hes
    | some p =>
      simp only []
      cases hr : p fieldName field.val c with
      | error e => trivial
      | ok b =>
        cases b with
        | true => simpa using hes
        | false =>
          simp only [Bool.not_false, if_true]
          exact pushError_staysInvalid _ _ _ _

theorem validateField_of_ne_nil (rx : RegExpHost) (o : Options) (fieldName : String)
    (field : Field) (rules : FieldRules) (es : ErrorsStack) (hes : es ≠ []) :
    staysInvalid (validateField rx o fieldName field es rules) := by
  induction rules generalizing es with
  | nil => exact hes
  | cons rule rest ih =>
    unfold validateField
    have h := validateRule_of_ne_nil rx o fieldName field es rule hes
    cases hr : validateRule rx o fieldName field es rule with
    | error e => trivial
    | ok es1 =>
      rw [hr] at h
      exact ih es1 h

theorem validateField_of_pass (rx : RegExpHost) (o : Options) (fieldName : String)
    (field : Field) (rules : FieldRules) (es : ErrorsStack)
    (hreg : rules.all regularRule = true)
    (hpass : rules.all (specPairPasses rx fieldName field.val) = true) :
    validateField rx o fieldName field es rules = .ok es := by
  induction rules with
  | nil => rfl
  | cons rule rest ih =>
    simp only [List.all_cons, Bool.and_eq_true] at hreg hpass
    unfold validateField
    rw [validateRule_of_pass rx o fieldName field es rule hreg.1 hpass.1]
    exact ih hreg.2 hpass.2

theorem validateField_of_fail (rx : RegExpHost) (o : Options) (fieldName : String)
    (field : Field) (rules : FieldRules) (es : ErrorsStack)
    (hreg : rules.all regularRule = true)
    (hfail : rules.all (specPairPasses rx fieldName field.val) = false) :
    staysInvalid (validateField rx o fieldName field es rules) := by
  induction rules with
  | nil => simp at hfail
  | cons rule rest ih =>
    simp only [List.all_cons, Bool.and_eq_true] at hreg
    unfold validateField
    cases hp : specPairPasses rx fieldName field.val rule with
    | true =>
      rw [validateRule_of_pass rx o fieldName field es rule hreg.1 hp]
      apply ih hreg.2
      simpa [List.all_cons, hp] using hfail
    | false =>
      have h := validateRule_of_fail rx o fieldName field es rule hreg.1 hp
      cases hr : validateRule rx o fieldName field es rule with
      | error e => trivial
      | ok es1 =>
        rw [hr] at h
        exact validateField_of_ne_nil rx o fieldName field rest es1 h

theorem validateFields_of_ne_nil (rx : RegExpHost) (o : Options) (config : ValidationConfig)
    (es : ErrorsStack) (hes : es ≠ []) :
    staysInvalid (validateFields rx o es config) := by
  induction config generalizing es with
  | nil => exact hes
  | cons fr rest ih =>
    obtain ⟨fieldName, rules⟩ := fr
    unfold validateFields
    have h := validateField_of_ne_nil rx o fieldName (o.getField fieldName) rules es hes
    cases hr : validateField rx o fieldName (o.getField fieldName) es rules with
    | error e => trivial
    | ok es1 =>
      rw [hr] at h
      exact ih es1 h

theorem validateFields_of_pass (rx : RegExpHost) (o : Options) (config : ValidationConfig)
    (es : ErrorsStack) (hreg : regularRuleNames config = true)
    (hpass : (config.all fun fr =>
      fr.2.all fun rule => specPairPasses rx fr.1 (o.getField fr.1).val rule) = true) :
    validateFields rx o es config = .ok es := by
  induction config with
  | nil => rfl
  | cons fr rest ih =>
    obtain ⟨fieldName, rules⟩ := fr
    simp only [regularRuleNames, List.all_cons, Bool.and_eq_true] at hreg hpass
    unfold validateFields
    rw [validateField_of_pass rx o fieldName (o.getField fieldName) rules es hreg.1 hpass.1]
    exact ih hreg.2 hpass.2

theorem validateFields_of_fail (rx : RegExpHost) (o : Options) (config : ValidationConfig)
    (es : ErrorsStack) (hreg : regularRuleNames config = true)
    (hfail : (config.all fun fr =>
      fr.2.all fun rule => specPairPasses rx fr.1 (o.getField fr.1).val rule) = false) :
    staysInvalid (validateFields rx o es config) := by
  induction config with
  | nil => simp at hfail
  | cons fr rest ih =>
    obtain ⟨fieldName, rules⟩ := fr
    simp only [regularRuleNames, List.all_cons, Bool.and_eq_true] at hreg
    unfold validateFields
    cases hp : rules.all (specPairPasses rx fieldName (o.getField fieldName).val) with
    | true =>
      rw [validateField_of_pass rx o fieldName (o.getField fieldName) rules es hreg.1 hp]
      apply ih hreg.2
      simpa [List.all_cons, hp] using hfail
    | false =>
      have h := validateField_of_fail rx o fieldName (o.getField fieldName) rules es hreg.1 hp
      cases hr : validateField rx o fieldName (o.getField fieldName) es rules with
      | error e => trivial
      | ok es1 =>
        rw [hr] at h
        exact validateFields_of_ne_nil rx o rest es1 h

/-- For an attached form whose rule names are regular (no rule configuration
sits under a name inherited from `Object.prototype`), the validity flag after
`validate` is true exactly when every field/rule pair passes. -/
theorem flag_iff_all_pass_of_regular (rx : RegExpHost) (s : Engine)
    (hform : s.options.form = .jquery)
    (hreg : regularRuleNames s.options.config = true) :
    methods.isValid (methods.validate rx s).1 = true ↔ specAllPass rx s.options = true := by
  obtain ⟨o, dom⟩ := s
  obtain ⟨form, config, isValid, dflt, getField, onChange⟩ := o
  simp only at hform hreg
  subst hform
  simp only [methods.validate, methods.clear, methods.isValid]
  cases hall : specAllPass rx ⟨.jquery, config, isValid, dflt, getField, onChange⟩ with
  | true =>
    have h := validateFields_of_pass rx ⟨.jquery, config, false, dflt, getField, onChange⟩
      config [] hreg hall
    simp [h]
  | false =>
    have h := validateFields_of_fail rx ⟨.jquery, config, false, dflt, getField, onChange⟩
      config [] hreg hall
    cases hr : validateFields rx ⟨.jquery, config, false, dflt, getField, onChange⟩ []
        config with
    | error e => simp
    | ok es =>
      rw [hr] at h
      have hlen : es.length ≠ 0 := fun h0 => h (List.length_eq_zero.mp h0)
      simp [hlen]

theorem flag_iff_all_pass_of_regular_witness :
    methods.isValid (methods.validate (fun _ _ => none)
      (formWith "bob" [("login", [("notEmpty", .config {}), ("futureRule", .config {})])])).1
        = true ↔
    specAllPass (fun _ _ => none)
      (formWith "bob" [("login", [("notEmpty", .config {}), ("futureRule", .config {})])]).options
        = true :=
  flag_iff_all_pass_of_regular (fun _ _ => none)
    (formWith "bob" [("login", [("notEmpty", .config {}), ("futureRule", .config {})])])
    rfl (by decide)

/-! ## The report, for regular names -/

theorem message_resolved (defaultErrorMessage : String) (c : RuleConfig) :
    (if strFalsy c.message then defaultErrorMessage
      else c.message.getD defaultErrorMessage) = resolvedMessage defaultErrorMessage c := by
  unfold resolvedMessage strFalsy
  cases c.message with
  | none => simp
  | some m => by_cases hm : m = "" <;> simp [hm]

/-- A failing built-in rule appends the resolved message. -/
theorem validateRule_builtin_fail (rx : RegExpHost) (o : Options) (fieldName : String)
    (field : Field) (es : ErrorsStack) (name : String) (c : RuleConfig)
    (p : String → String → RuleConfig → Except JSError Bool)
    (hp : plugins rx name = some p) (hfail : p fieldName field.val c = .ok false) :
    validateRule rx o fieldName field es (name, .config c) =
      pushError es fieldName field (resolvedMessage o.defaultErrorMessage c) := by
  unfold validateRule
  simp only [hp, hfail, message_resolved]
  simp

/-- A regular rule that does not throw does what the specification says: nothing
when it passes, one append of its message when it fails. -/
theorem validateRule_spec (rx : RegExpHost) (o : Options) (fieldName : String)
    (field : Field) (es : ErrorsStack) (rule : String × PluginConfig)
    (hreg : regularRule rule = true)
    (hcomp : ruleCompiles rx fieldName field.val rule = true) :
    validateRule rx o fieldName field es rule =
      match specFailure rx o.defaultErrorMessage fieldName field.val rule with
      | none => .ok es
      | some m => pushError es fieldName field m := by
  cases hpass : specPairPasses rx fieldName field.val rule with
  | true =>
    rw [validateRule_of_pass rx o fieldName field es rule hreg hpass]
    simp [specFailure, hpass]
  | false =>
    obtain ⟨name, pc⟩ := rule
    cases pc with
    | func f =>
      simp only [specFailure, hpass, Bool.false_eq_true, if_false]
      simp only [specPairPasses, Bool.and_eq_false_iff, Bool.not_eq_false'] at hpass
      have hcond : (!(f fieldName field.val).truthy || (f fieldName field.val).isString)
          = true := by
        rcases hpass with h | h <;> simp [h]
      simp only [validateRule, hcond, if_true]
      cases hres : f fieldName field.val with
      | str t =>
        by_cases ht : t = ""
        · simp [JSVal.truthy, ht]
        · simp [JSVal.truthy, ht]
      | undefined => simp [JSVal.truthy]
      | null => simp [JSVal.truthy]
      | bool b => cases b <;> simp [JSVal.truthy]
      | num n => simp
      | object => simp [JSVal.truthy]
    | config c =>
      simp only [specFailure, hpass, Bool.false_eq_true, if_false]
      simp only [regularRule, decide_eq_true_eq] at hreg
      simp only [specPairPasses] at hpass
      simp only [ruleCompiles] at hcomp
      by_cases h1 : name = "notEmpty"
      · subst h1
        simp at hpass
        exact validateRule_builtin_fail rx o fieldName field es _ c _ rfl
          (by simp [hpass])
      by_cases h2 : name = "length"
      · subst h2
        simp at hpass
        exact validateRule_builtin_fail rx o fieldName field es _ c _ rfl
          (by simp [hpass])
      by_cases h3 : name = "interval"
      · subst h3
        simp at hpass
        exact validateRule_builtin_fail rx o fieldName field es _ c _ rfl
          (by simp [hpass])
      by_cases h4 : name = "regex"
      · subst h4
        simp at hpass hcomp
        cases hr : plugins.regex rx fieldName field.val c with
        | error e => simp [hr] at hcomp
        | ok b =>
          cases b with
          | true => exact absurd hr hpass
          | false =>
            exact validateRule_builtin_fail rx o fieldName field es _ c _ rfl hr
      by_cases h5 : name = "compare"
      · subst h5
        simp at hpass
        exact validateRule_builtin_fail rx o fieldName field es _ c _ rfl
          (by simp [hpass])
      simp [h1, h2, h3, h4, h5] at hpass

theorem lookup_none_cons (k other : String) (e : ErrorEntry) (es : ErrorsStack)
    (h : List.lookup other ((k, e) :: es) = none) : other ≠ k ∧ es.lookup other = none := by
  by_cases hk : other = k
  · subst hk
    simp [List.lookup_cons] at h
  · have h2 : (other == k) = false := by simp [hk]
    simp only [List.lookup_cons, h2] at h
    exact ⟨hk, h⟩

theorem pushMessage_append_new (fieldName message : String) (e : ErrorEntry)
    (es : ErrorsStack) (h : es.lookup fieldName = none) :
    pushMessage fieldName message (es ++ [(fieldName, e)]) =
      es ++ [(fieldName, { e with messages := e.messages ++ [message] })] := by
  induction es with
  | nil => simp [pushMessage]
  | cons kv rest ih =>
    obtain ⟨k, x⟩ := kv
    obtain ⟨hk, hrest⟩ := lookup_none_cons k fieldName x rest h
    have hk2 : ¬ k = fieldName := fun h => hk h.symm
    show pushMessage fieldName message ((k, x) :: (rest ++ [(fieldName, e)])) = _
    rw [pushMessage, if_neg hk2, ih hrest]
    rfl

/-- Appending to the entry under construction for a field without an earlier
entry and with a name that is not inherited. -/
theorem pushError_entryOf (es : ErrorsStack) (fieldName : String) (field : Field)
    (acc : List String) (message : String)
    (hnew : es.lookup fieldName = none) (hname : fieldName ∉ objectPrototypeKeys) :
    pushError (es ++ entryOf fieldName field acc) fieldName field message =
      .ok (es ++ entryOf fieldName field (acc ++ [message])) := by
  by_cases hacc : acc = []
  · subst hacc
    simp [entryOf, pushError, hnew, hname]
  · have hl : ((es ++ [(fieldName, ({ object := field, messages := acc } : ErrorEntry))]).lookup
        fieldName).isSome = true := by
      rw [lookup_append_new, hnew]
      simp
    simp only [entryOf, hacc, if_false, pushError, hl, if_true]
    rw [pushMessage_append_new _ _ _ _ hnew]
    simp

theorem validateField_entryOf (rx : RegExpHost) (o : Options) (fieldName : String)
    (field : Field) (rules : FieldRules) (es : ErrorsStack) (acc : List String)
    (hnew : es.lookup fieldName = none) (hname : fieldName ∉ objectPrototypeKeys)
    (hreg : rules.all regularRule = true)
    (hcomp : rules.all (ruleCompiles rx fieldName field.val) = true) :
    validateField rx o fieldName field (es ++ entryOf fieldName field acc) rules =
      .ok (es ++ entryOf fieldName field
        (acc ++ specMessages rx o.defaultErrorMessage fieldName field.val rules)) := by
  induction rules generalizing acc with
  | nil => simp [validateField, specMessages]
  | cons rule rest ih =>
    simp only [List.all_cons, Bool.and_eq_true] at hreg hcomp
    unfold validateField
    rw [validateRule_spec rx o fieldName field _ rule hreg.1 hcomp.1]
    cases hf : specFailure rx o.defaultErrorMessage fieldName field.val rule with
    | none =>
      simp only [specMessages, List.filterMap_cons, hf]
      exact ih acc hreg.2 hcomp.2
    | some m =>
      simp only [specMessages, List.filterMap_cons, hf]
      rw [pushError_entryOf es fieldName field acc m hnew hname]
      simp only []
      rw [ih (acc ++ [m]) hreg.2 hcomp.2]
      simp [specMessages]

theorem validateFields_spec (rx : RegExpHost) (o : Options) (config : ValidationConfig)
    (es : ErrorsStack)
    (hnew : ∀ name ∈ config.map Prod.fst, es.lookup name = none)
    (hnodup : (config.map Prod.fst).Nodup)
    (hnames : regularFieldNames config = true)
    (hreg : regularRuleNames config = true)
    (hcomp : allCompile rx o config = true) :
    validateFields rx o es config =
      .ok (es ++ specReportOf rx o.defaultErrorMessage o.getField config) := by
  induction config generalizing es with
  | nil => simp [validateFields, specReportOf]
  | cons fr rest ih =>
    obtain ⟨fieldName, rules⟩ := fr
    simp only [regularFieldNames, regularRuleNames, allCompile, List.all_cons,
      Bool.and_eq_true, decide_eq_true_eq] at hnames hreg hcomp
    simp only [List.map_cons, List.nodup_cons] at hnodup
    have hnewf : es.lookup fieldName = none := hnew fieldName (by simp)
    have hfield := validateField_entryOf rx o fieldName (o.getField fieldName) rules es []
      hnewf hnames.1 hreg.1 hcomp.1
    simp only [entryOf, if_true, List.append_nil, List.nil_append] at hfield
    unfold validateFields
    rw [hfield]
    simp only []
    rw [ih _ ?_ hnodup.2 hnames.2 hreg.2 hcomp.2]
    · simp [specReportOf, entryOf]
    · intro name hname
      have hne : name ≠ fieldName := by
        intro h
        subst h
        exact hnodup.1 hname
      have hold : es.lookup name = none := hnew name (by simp [hname])
      split
      · simpa using hold
      · rw [lookup_append_new, hold]
        simp [hne]

theorem lookup_specReportOf_none (rx : RegExpHost) (dflt : String) (getField : String → Field)
    (config : ValidationConfig) (name : String) (h : name ∉ config.map Prod.fst) :
    (specReportOf rx dflt getField config).lookup name = none := by
  induction config with
  | nil => simp [specReportOf]
  | cons fr rest ih =>
    obtain ⟨fieldName, rules⟩ := fr
    simp only [List.map_cons, List.mem_cons, not_or] at h
    have hk : (name == fieldName) = false := by simp [h.1]
    simp only [specReportOf, entryOf]
    split
    · simpa using ih h.2
    · simp only [List.singleton_append, List.lookup_cons, hk]
      exact ih h.2

theorem messagesOf_specReportOf (rx : RegExpHost) (dflt : String) (getField : String → Field)
    (config : ValidationConfig)
    (hnodup : (config.map Prod.fst).Nodup) (fieldName : String) (rules : FieldRules)
    (hmem : (fieldName, rules) ∈ config) :
    messagesOf (specReportOf rx dflt getField config) fieldName =
      specMessages rx dflt fieldName (getField fieldName).val rules := by
  induction config with
  | nil => simp at hmem
  | cons fr rest ih =>
    obtain ⟨g, rs⟩ := fr
    simp only [List.map_cons, List.nodup_cons] at hnodup
    simp only [List.mem_cons, Prod.mk.injEq] at hmem
    rcases hmem with ⟨hg, hr⟩ | hmem
    · subst hg hr
      have hnone := lookup_specReportOf_none rx dflt getField rest fieldName hnodup.1
      by_cases hempty : specMessages rx dflt fieldName (getField fieldName).val rules = []
      · simp [specReportOf, entryOf, messagesOf, hempty, hnone]
      · simp [specReportOf, entryOf, messagesOf, hempty, List.lookup_cons]
    · have hne : fieldName ≠ g := by
        intro h
        subst h
        exact hnodup.1 (List.mem_map.mpr ⟨(fieldName, rules), hmem, rfl⟩)
      have hk : (fieldName == g) = false := by simp [hne]
      have hrec := ih hnodup.2 hmem
      unfold messagesOf at hrec ⊢
      by_cases hempty : specMessages rx dflt g (getField g).val rs = []
      · simp only [specReportOf, entryOf, hempty, if_true, List.nil_append]
        exact hrec
      · simp only [specReportOf, entryOf, hempty, if_false, List.singleton_append,
          List.lookup_cons, hk]
        exact hrec

/-- For an attached form whose field names are pairwise different and not
inherited from `Object.prototype`, whose rule names are regular and whose
`regex` patterns compile, `validate` completes and builds exactly the report
of the specification: for every field, one message per failing rule, in the
order of the rules. -/
theorem report_of_regular (rx : RegExpHost) (s : Engine)
    (hform : s.options.form = .jquery)
    (hnodup : (s.options.config.map Prod.fst).Nodup)
    (hnames : regularFieldNames s.options.config = true)
    (hreg : regularRuleNames s.options.config = true)
    (hcomp : allCompile rx s.options s.options.config = true) :
    (methods.validate rx s).2 = .ok (specReport rx s.options) ∧
    ∀ fieldName rules, (fieldName, rules) ∈ s.options.config →
      messagesOf (specReport rx s.options) fieldName =
        specMessages rx s.options.defaultErrorMessage fieldName
          (s.options.getField fieldName).val rules := by
  obtain ⟨o, dom⟩ := s
  obtain ⟨form, config, isValid, dflt, getField, onChange⟩ := o
  simp only at hform hnodup hnames hreg hcomp
  subst hform
  constructor
  · have h := validateFields_spec rx ⟨.jquery, config, false, dflt, getField, onChange⟩ config []
      (by intro name _; rfl) hnodup hnames hreg hcomp
    simp only [List.nil_append] at h
    simp only [methods.validate, methods.clear, h]
    split <;> rfl
  · intro fieldName rules hmem
    exact messagesOf_specReportOf rx dflt getField config hnodup fieldName rules hmem

theorem report_of_regular_witness :
    (methods.validate (fun _ _ => none) (formWith ""
      [("team", [("notEmpty", .config { message := some "required" }),
                 ("futureRule", .config {}),
                 ("length", .config { min := some 3 })])])).2 =
      .ok (specReport (fun _ _ => none) (formWith ""
        [("team", [("notEmpty", .config { message := some "required" }),
                   ("futureRule", .config {}),
                   ("length", .config { min := some 3 })])]).options) ∧
    specReport (fun _ _ => none) (formWith ""
        [("team", [("notEmpty", .config { message := some "required" }),
                   ("futureRule", .config {}),
                   ("length", .config { min := some 3 })])]).options =
      [("team", { object := ⟨"team", ""⟩,
                  messages := ["required", "Validation result negative"] })] :=
  ⟨(report_of_regular (fun _ _ => none) (formWith ""
      [("team", [("notEmpty", .config { message := some "required" }),
                 ("futureRule", .config {}),
                 ("length", .config { min := some 3 })])])
      rfl (by decide) (by decide) (by decide) (by decide)).1, by decide⟩

/-! ## Rule names the registry does not resolve -/

/-- A rule configuration under a name that is neither a built-in rule nor a
member of `Object.prototype` is skipped: the registry read finds nothing and
the step leaves `errorsStack` as it is. -/
theorem validateRule_of_unresolved (rx : RegExpHost) (o : Options) (fieldName : String)
    (field : Field) (es : ErrorsStack) (name : String) (c : RuleConfig)
    (hbuiltin : name ∉ pluginNames) (hproto : name ∉ objectPrototypeKeys) :
    plugins rx name = none ∧
    validateRule rx o fieldName field es (name, .config c) = .ok es := by
  have hnone : plugins rx name = none := by
    simp only [pluginNames, List.mem_cons, List.mem_singleton, List.mem_nil_iff, or_false,
      not_or] at hbuiltin
    rw [plugins_of_regular rx name hproto]
    simp [hbuiltin]
  exact ⟨hnone, by simp [validateRule, hnone]⟩

theorem validateField_congr (rx : RegExpHost) (o o1 : Options)
    (hd : o.defaultErrorMessage = o1.defaultErrorMessage) (fieldName : String) (field : Field)
    (rules : FieldRules) (es : ErrorsStack) :
    validateField rx o fieldName field es rules =
      validateField rx o1 fieldName field es rules := by
  induction rules generalizing es with
  | nil => rfl
  | cons rule rest ih =>
    have hrule : validateRule rx o fieldName field es rule =
        validateRule rx o1 fieldName field es rule := by
      unfold validateRule
      rw [hd]
    unfold validateField
    rw [hrule]
    cases validateRule rx o1 fieldName field es rule with
    | error e => rfl
    | ok es1 => exact ih es1

theorem validateFields_congr (rx : RegExpHost) (o o1 : Options)
    (hd : o.defaultErrorMessage = o1.defaultErrorMessage) (hg : o.getField = o1.getField)
    (config : ValidationConfig) (es : ErrorsStack) :
    validateFields rx o es config = validateFields rx o1 es config := by
  induction config generalizing es with
  | nil => rfl
  | cons fr rest ih =>
    obtain ⟨fieldName, rules⟩ := fr
    unfold validateFields
    rw [validateField_congr rx o o1 hd, hg]
    cases validateField rx o1 fieldName (o1.getField fieldName) es rules with
    | error e => rfl
    | ok es1 => exact ih es1

theorem validateField_remove_unresolved (rx : RegExpHost) (o : Options) (fieldName : String)
    (field : Field) (es : ErrorsStack) (before after : FieldRules) (name : String)
    (c : RuleConfig) (hbuiltin : name ∉ pluginNames) (hproto : name ∉ objectPrototypeKeys) :
    validateField rx o fieldName field es (before ++ (name, .config c) :: after) =
      validateField rx o fieldName field es (before ++ after) := by
  induction before generalizing es with
  | nil =>
    simp only [List.nil_append]
    rw [validateField,
      (validateRule_of_unresolved rx o fieldName field es name c hbuiltin hproto).2]
  | cons rule rest ih =>
    simp only [List.cons_append]
    unfold validateField
    cases validateRule rx o fieldName field es rule with
    | error e => rfl
    | ok es1 => exact ih es1

theorem validateFields_remove_unresolved (rx : RegExpHost) (o : Options) (es : ErrorsStack)
    (fieldsBefore fieldsAfter : ValidationConfig) (fieldName : String)
    (before after : FieldRules) (name : String) (c : RuleConfig)
    (hbuiltin : name ∉ pluginNames) (hproto : name ∉ objectPrototypeKeys) :
    validateFields rx o es
        (fieldsBefore ++ (fieldName, before ++ (name, .config c) :: after) :: fieldsAfter) =
      validateFields rx o es (fieldsBefore ++ (fieldName, before ++ after) :: fieldsAfter) := by
  induction fieldsBefore generalizing es with
  | nil =>
    simp only [List.nil_append]
    unfold validateFields
    rw [validateField_remove_unresolved rx o fieldName _ es before after name c hbuiltin hproto]
  | cons fr rest ih =>
    obtain ⟨g, rules⟩ := fr
    simp only [List.cons_append]
    unfold validateFields
    cases validateField rx o g (o.getField g) es rules with
    | error e => rfl
    | ok es1 => exact ih es1

/-- Removing a rule configuration whose name is neither a built-in rule nor a
member of `Object.prototype` changes neither the outcome of `validate` (the
report or the exception), nor the validity flag, nor the rendered markup. -/
theorem validate_remove_unresolved (rx : RegExpHost) (o : Options) (dom : Dom)
    (fieldsBefore fieldsAfter : ValidationConfig) (fieldName : String)
    (before after : FieldRules) (name : String) (c : RuleConfig)
    (hbuiltin : name ∉ pluginNames) (hproto : name ∉ objectPrototypeKeys) :
    (methods.validate rx
      { options := { o with config :=
          fieldsBefore ++ (fieldName, before ++ (name, .config c) :: after) :: fieldsAfter },
        dom := dom }).2 =
    (methods.validate rx
      { options := { o with config :=
          fieldsBefore ++ (fieldName, before ++ after) :: fieldsAfter },
        dom := dom }).2 ∧
    methods.isValid (methods.validate rx
      { options := { o with config :=
          fieldsBefore ++ (fieldName, before ++ (name, .config c) :: after) :: fieldsAfter },
        dom := dom }).1 =
    methods.isValid (methods.validate rx
      { options := { o with config :=
          fieldsBefore ++ (fieldName, before ++ after) :: fieldsAfter },
        dom := dom }).1 ∧
    (methods.validate rx
      { options := { o with config :=
          fieldsBefore ++ (fieldName, before ++ (name, .config c) :: after) :: fieldsAfter },
        dom := dom }).1.dom =
    (methods.validate rx
      { options := { o with config :=
          fieldsBefore ++ (fieldName, before ++ after) :: fieldsAfter },
        dom := dom }).1.dom := by
  obtain ⟨form, config, isValid, dflt, getField, onChange⟩ := o
  cases form with
  | plain => exact ⟨rfl, rfl, rfl⟩
  | jquery =>
    have hwalk := validateFields_remove_unresolved rx
      ⟨.jquery, fieldsBefore ++ (fieldName, before ++ (name, .config c) :: after) :: fieldsAfter,
        false, dflt, getField, onChange⟩ [] fieldsBefore fieldsAfter fieldName before after
      name c hbuiltin hproto
    have hopt := validateFields_congr rx
      ⟨.jquery, fieldsBefore ++ (fieldName, before ++ (name, .config c) :: after) :: fieldsAfter,
        false, dflt, getField, onChange⟩
      ⟨.jquery, fieldsBefore ++ (fieldName, before ++ after) :: fieldsAfter,
        false, dflt, getField, onChange⟩ rfl rfl
      (fieldsBefore ++ (fieldName, before ++ after) :: fieldsAfter) []
    simp only [methods.validate, methods.clear, methods.isValid, hwalk, hopt]
    cases validateFields rx
      ⟨.jquery, fieldsBefore ++ (fieldName, before ++ after) :: fieldsAfter,
        false, dflt, getField, onChange⟩ []
      (fieldsBefore ++ (fieldName, before ++ after) :: fieldsAfter) with
    | error e => exact ⟨rfl, rfl, rfl⟩
    | ok es =>
      by_cases hlen : es.length = 0
      · simp [hlen]
      · simp [hlen]

theorem validate_remove_unresolved_witness :
    (methods.validate (fun _ _ => none)
      { options := { (formWith "" []).options with config :=
          [] ++ ("login", [("notEmpty", .config {})] ++ ("futureRule", .config {}) :: []) :: [] },
        dom := {} }).2 =
    (methods.validate (fun _ _ => none)
      { options := { (formWith "" []).options with config :=
          [] ++ ("login", [("notEmpty", .config {})] ++ []) :: [] },
        dom := {} }).2 :=
  (validate_remove_unresolved (fun _ _ => none) (formWith "" []).options {} [] [] "login"
    [("notEmpty", .config {})] [] "futureRule" {} (by decide) (by decide)).1

/-! ## The `length` rule with `max` -/

/-- C18: with `min` and `max` both set to positive numbers the `length` rule fails
on every value, whatever its length: the test against `max` reads `value.max`,
which a string does not have.  With min 3 and max 10 it fails on "abcd", whose
length 4 lies between the two. -/
theorem length_fails_with_min_and_max (fieldName value : String) (c : RuleConfig) (m M : ℚ)
    (hmin : c.min = some m) (hm : 0 < m) (hmax : c.max = some M) (hM : 0 < M) :
    plugins.length fieldName value c = false ∧
    plugins.length "login" "abcd" { min := some 3, max := some 10 } = false ∧
    (3 ≤ jsLength "abcd" ∧ jsLength "abcd" ≤ 10) := by
  refine ⟨?_, by decide, by decide⟩
  have hm0 : m ≠ 0 := ne_of_gt hm
  have hM0 : M ≠ 0 := ne_of_gt hM
  simp [plugins.length, maxOf, minOf, numFalsy, hmin, hmax, hm0, hM0]

theorem length_fails_with_min_and_max_witness :
    plugins.length "login" "abcd" { min := some 3, max := some 10 } = false :=
  (length_fails_with_min_and_max "login" "abcd" { min := some 3, max := some 10 } 3 10
    rfl (by decide) rfl (by decide)).1

/-- C19: with `min` absent or 0 the `length` rule passes on every value whatever
`max` is: `max` is read only when `min` is set.  With only max 5 configured it
passes on a value of any length. -/
theorem length_passes_without_min (fieldName value : String) (c : RuleConfig)
    (hmin : c.min = none ∨ c.min = some 0) :
    plugins.length fieldName value c = true ∧
    (∀ v : String, plugins.length "login" v { max := some 5 } = true) ∧
    (plugins.length "login" "abcdefghij" { max := some 5 } = true ∧
      5 < jsLength "abcdefghij") := by
  have hgen : ∀ (f v : String) (c : RuleConfig), (c.min = none ∨ c.min = some 0) →
      plugins.length f v c = true := by
    intro f v c h
    have hf : numFalsy c.min = true := by
      rcases h with h | h <;> simp [numFalsy, h]
    have hmax : maxOf c = none := by simp [maxOf, hf]
    have hmin0 : minOf c = 0 := by simp [minOf, hf]
    simp [plugins.length, hmax, hmin0, numFalsy]
  exact ⟨hgen fieldName value c hmin, fun v => hgen "login" v _ (Or.inl rfl),
    by decide, by decide⟩

theorem length_passes_without_min_witness :
    plugins.length "login" "abcdefghij" { min := some 0, max := some 5 } = true :=
  (length_passes_without_min "login" "abcdefghij" { min := some 0, max := some 5 }
    (Or.inr rfl)).1

/-! ## `clear` -/

/-- C11: `clear` leaves `options` as it is, so the validity flag, the
configuration and the default message are unchanged and `isValid()` returns the
same value after `clear()` as before; on an attached form it returns with the
error containers and the error markers removed and nothing else changed; on a
form that is not attached it throws and changes nothing. -/
theorem clear_keeps_options (s : Engine) :
    (afterClear s).options = s.options ∧
    methods.isValid (afterClear s) = methods.isValid s ∧
    (afterClear s).options.config = s.options.config ∧
    (afterClear s).options.defaultErrorMessage = s.options.defaultErrorMessage ∧
    (s.options.form = .jquery →
      methods.clear s = .ok { options := s.options, dom := { containers := [], errorFields := [] } }) ∧
    (s.options.form = .plain → methods.clear s = .error .typeError ∧ afterClear s = s) := by
  have hopt : (afterClear s).options = s.options := by
    unfold afterClear methods.clear
    cases s.options.form <;> rfl
  refine ⟨hopt, ?_, ?_, ?_, ?_, ?_⟩
  · simp [methods.isValid, hopt]
  · rw [hopt]
  · rw [hopt]
  · intro h
    simp [methods.clear, h]
  · intro h
    simp [afterClear, methods.clear, h]

/-! ## Invariants of the walk -/

theorem pushMessage_mem (fieldName message : String) (es : ErrorsStack) (ke : String × ErrorEntry)
    (h : ke ∈ pushMessage fieldName message es) :
    ke ∈ es ∨ ∃ e, (ke.1, e) ∈ es ∧ ke.2 = { e with messages := e.messages ++ [message] } := by
  induction es with
  | nil => simp [pushMessage] at h
  | cons kv rest ih =>
    obtain ⟨k, e⟩ := kv
    unfold pushMessage at h
    split at h
    · rcases List.mem_cons.mp h with h | h
      · right
        exact ⟨e, by simp [h], by simp [h]⟩
      · left
        exact List.mem_cons_of_mem _ h
    · rcases List.mem_cons.mp h with h | h
      · left
        simp [h]
      · rcases ih h with h | ⟨e0, h1, h2⟩
        · left
          exact List.mem_cons_of_mem _ h
        · right
          exact ⟨e0, List.mem_cons_of_mem _ h1, h2⟩

/-- What the append statements can put into `errorsStack`: an entry that was
there, an entry that was there with the message added, or a new entry for the
field with the message alone. -/
theorem pushError_mem (es es1 : ErrorsStack) (fieldName : String) (field : Field)
    (message : String) (h : pushError es fieldName field message = .ok es1)
    (ke : String × ErrorEntry) (hke : ke ∈ es1) :
    ke ∈ es ∨
    (∃ e, (ke.1, e) ∈ es ∧ ke.2 = { e with messages := e.messages ++ [message] }) ∨
    ke = (fieldName, { object := field, messages := [message] }) := by
  unfold pushError at h
  split at h
  · injection h with h
    subst h
    rcases pushMessage_mem _ _ _ _ hke with h | h
    · exact Or.inl h
    · exact Or.inr (Or.inl h)
  · split at h
    · exact absurd h (by simp)
    · injection h with h
      subst h
      rcases List.mem_append.mp hke with h | h
      · exact Or.inl h
      · right
        right
        simpa using h

theorem validateRule_preserves (I : ErrorsStack → Prop) (rx : RegExpHost) (o : Options)
    (fieldName : String) (field : Field)
    (hI : ∀ es m es1, I es → pushError es fieldName field m = .ok es1 → I es1)
    (es es1 : ErrorsStack) (rule : String × PluginConfig) (hes : I es)
    (h : validateRule rx o fieldName field es rule = .ok es1) : I es1 := by
  obtain ⟨name, pc⟩ := rule
  cases pc with
  | func f =>
    simp only [validateRule] at h
    split at h
    · exact hI _ _ _ hes h
    · injection h with h
      exact h ▸ hes
  | config c =>
    simp only [validateRule] at h
    cases hp : plugins rx name with
    | none =>
      simp only [hp] at h
      injection h with h
      exact h ▸ hes
    | some p =>
      simp only [hp] at h
      cases hr : p fieldName field.val c with
      | error e => simp [hr] at h
      | ok b =>
        simp only [hr] at h
        cases b with
        | true =>
          simp at h
          exact h ▸ hes
        | false =>
          simp only [Bool.not_false, if_true] at h
          exact hI _ _ _ hes h

theorem validateField_preserves (I : ErrorsStack → Prop) (rx : RegExpHost) (o : Options)
    (fieldName : String) (field : Field)
    (hI : ∀ es m es1, I es → pushError es fieldName field m = .ok es1 → I es1)
    (rules : FieldRules) (es es1 : ErrorsStack) (hes : I es)
    (h : validateField rx o fieldName field es rules = .ok es1) : I es1 := by
  induction rules generalizing es with
  | nil =>
    simp only [validateField] at h
    injection h with h
    exact h ▸ hes
  | cons rule rest ih =>
    unfold validateField at h
    cases hr : validateRule rx o fieldName field es rule with
    | error e => simp [hr] at h
    | ok es2 =>
      simp only [hr] at h
      exact ih es2 (validateRule_preserves I rx o fieldName field hI es es2 rule hes hr) h

theorem validateFields_preserves (I : ErrorsStack → Prop) (rx : RegExpHost) (o : Options)
    (config : ValidationConfig)
    (hI : ∀ fieldName ∈ config.map Prod.fst, ∀ es m es1, I es →
      pushError es fieldName (o.getField fieldName) m = .ok es1 → I es1)
    (es es1 : ErrorsStack) (hes : I es)
    (h : validateFields rx o es config = .ok es1) : I es1 := by
  induction config generalizing es with
  | nil =>
    simp only [validateFields] at h
    injection h with h
    exact h ▸ hes
  | cons fr rest ih =>
    obtain ⟨fieldName, rules⟩ := fr
    unfold validateFields at h
    cases hr : validateField rx o fieldName (o.getField fieldName) es rules with
    | error e => simp [hr] at h
    | ok es2 =>
      simp only [hr] at h
      have h2 : I es2 := validateField_preserves I rx o fieldName (o.getField fieldName)
        (hI fieldName (by simp)) rules es es2 hes hr
      exact ih (fun f hf => hI f (by simp [hf])) es2 h2 h

/-- A completed pass is a completed walk over the configuration of an attached
form, and the markup it leaves is the rendering of its report. -/
theorem validate_ok (rx : RegExpHost) (s : Engine) (es : ErrorsStack)
    (h : (methods.validate rx s).2 = .ok es) :
    s.options.form = .jquery ∧
    validateFields rx { s.options with isValid := false } [] s.options.config = .ok es ∧
    (methods.validate rx s).1.dom = renderErrors { containers := [], errorFields := [] } es ∧
    (methods.isValid (methods.validate rx s).1 = true ↔ es = []) := by
  obtain ⟨o, dom⟩ := s
  obtain ⟨form, config, isValid, dflt, getField, onChange⟩ := o
  cases form with
  | plain => simp [methods.validate, methods.clear] at h
  | jquery =>
    simp only [methods.validate, methods.clear] at h ⊢
    cases hv : validateFields rx ⟨.jquery, config, false, dflt, getField, onChange⟩ []
        config with
    | error e => simp [hv] at h
    | ok es2 =>
      simp only [hv] at h ⊢
      by_cases hlen : es2.length = 0
      · simp only [hlen, if_true] at h ⊢
        injection h with h
        subst h
        have : es2 = [] := List.length_eq_zero.mp hlen
        subst this
        simp [methods.isValid, renderErrors]
      · simp only [hlen, if_false] at h ⊢
        injection h with h
        subst h
        have : es2 ≠ [] := fun h0 => hlen (by simp [h0])
        simp [methods.isValid, this]

/-! ## The report and its rendering -/

theorem renderErrors_eq (dom : Dom) (es : ErrorsStack) :
    renderErrors dom es =
      { containers := dom.containers ++ es.map (fun ke => (ke.2.object.name, errorContainer ke.2)),
        errorFields := dom.errorFields ++ es.map (fun ke => ke.2.object.name) } := by
  induction es generalizing dom with
  | nil => simp [renderErrors]
  | cons ke rest ih =>
    obtain ⟨k, e⟩ := ke
    simp [renderErrors, ih]

theorem allNonEmpty_pushError (es es1 : ErrorsStack) (fieldName : String) (field : Field)
    (message : String) (hes : allNonEmpty es)
    (h : pushError es fieldName field message = .ok es1) : allNonEmpty es1 := by
  intro ke hke
  rcases pushError_mem es es1 fieldName field message h ke hke with h1 | ⟨e, _, h2⟩ | h3
  · exact hes ke h1
  · rw [h2]
    simp
  · rw [h3]
    simp

theorem keysWithin_pushError (names : List String) (es es1 : ErrorsStack) (fieldName : String)
    (field : Field) (message : String) (hname : fieldName ∈ names) (hes : keysWithin names es)
    (h : pushError es fieldName field message = .ok es1) : keysWithin names es1 := by
  intro ke hke
  rcases pushError_mem es es1 fieldName field message h ke hke with h1 | ⟨e, h2, _⟩ | h3
  · exact hes ke h1
  · exact hes (ke.1, e) h2
  · rw [h3]
    exact hname

theorem objectsFrom_pushError (getField : String → Field) (es es1 : ErrorsStack)
    (fieldName : String) (message : String) (hes : objectsFrom getField es)
    (h : pushError es fieldName (getField fieldName) message = .ok es1) :
    objectsFrom getField es1 := by
  intro ke hke
  rcases pushError_mem es es1 fieldName (getField fieldName) message h ke hke with
    h1 | ⟨e, h2, h3⟩ | h3
  · exact hes ke h1
  · rw [h3]
    exact hes (ke.1, e) h2
  · rw [h3]

/-- C20: every entry of the report a completed `validate` built holds at least
one message, so the rendering step meets no entry with an empty sequence of
messages: each container holds one message or a list of at least two. -/
theorem entries_have_messages (rx : RegExpHost) (s : Engine) (es : ErrorsStack)
    (h : (methods.validate rx s).2 = .ok es) :
    (∀ ke ∈ es, ke.2.messages ≠ []) ∧
    (∀ ke ∈ es, 1 ≤ ke.2.messages.length) ∧
    (∀ ke ∈ es, errorContainer ke.2 ≠ .list []) := by
  have hwalk := (validate_ok rx s es h).2.1
  have hinv : allNonEmpty es :=
    validateFields_preserves allNonEmpty rx _ s.options.config
      (fun f _ es0 m es1 h0 h1 => allNonEmpty_pushError es0 es1 f _ m h0 h1)
      [] es (by intro ke hke; simp at hke) hwalk
  refine ⟨hinv, ?_, ?_⟩
  · intro ke hke
    exact List.length_pos.mpr (hinv ke hke)
  · intro ke hke hlist
    have hne := hinv ke hke
    unfold errorContainer at hlist
    split at hlist
    · simp at hlist
    · injection hlist with hl
      exact hne hl

theorem entries_have_messages_witness :
    (methods.validate (fun _ _ => none)
      (formWith "" [("login", [("notEmpty", .config {})])])).2 =
      .ok [("login", { object := ⟨"login", ""⟩, messages := ["Validation result negative"] })] ∧
    ["Validation result negative"] ≠ [] :=
  ⟨rfl, (entries_have_messages (fun _ _ => none)
    (formWith "" [("login", [("notEmpty", .config {})])])
    [("login", { object := ⟨"login", ""⟩, messages := ["Validation result negative"] })]
    rfl).1 ("login", { object := ⟨"login", ""⟩, messages := ["Validation result negative"] })
    (List.mem_singleton_self _)⟩

/-- C15: every key of the report a completed `validate` built is a field name of
the configuration. -/
theorem report_keys_in_config (rx : RegExpHost) (s : Engine) (es : ErrorsStack)
    (h : (methods.validate rx s).2 = .ok es) :
    ∀ ke ∈ es, ke.1 ∈ s.options.config.map Prod.fst := by
  have hwalk := (validate_ok rx s es h).2.1
  exact validateFields_preserves (keysWithin (s.options.config.map Prod.fst)) rx _
    s.options.config
    (fun f hf es0 m es1 h0 h1 => keysWithin_pushError _ es0 es1 f _ m hf h0 h1)
    [] es (by intro ke hke; simp at hke) hwalk

theorem report_keys_in_config_witness :
    (methods.validate (fun _ _ => none)
      (formWith "" [("login", [("notEmpty", .config {})]),
        ("email", [("futureRule", .config {})])])).2 =
      .ok [("login", { object := ⟨"login", ""⟩, messages := ["Validation result negative"] })] ∧
    "login" ∈ (formWith "" [("login", [("notEmpty", .config {})]),
        ("email", [("futureRule", .config {})])]).options.config.map Prod.fst :=
  ⟨rfl, report_keys_in_config (fun _ _ => none)
    (formWith "" [("login", [("notEmpty", .config {})]),
      ("email", [("futureRule", .config {})])])
    [("login", { object := ⟨"login", ""⟩, messages := ["Validation result negative"] })]
    rfl ("login", { object := ⟨"login", ""⟩, messages := ["Validation result negative"] })
    (List.mem_singleton_self _)⟩

/-- C17: after a completed `validate` the rendered containers are, in order, one
per entry of the report, each next to the field of its entry, and the marked
fields are the fields of the entries, so a field without an entry gets neither;
the field of an entry is the one `getField` returns for its key; an entry with
exactly one message gets that message as the content of its container, an
entry with two or more messages gets a list with one item per message in the
order of the messages; with an empty report nothing is rendered. -/
theorem rendered_blocks (rx : RegExpHost) (s : Engine) (es : ErrorsStack)
    (h : (methods.validate rx s).2 = .ok es) :
    (methods.validate rx s).1.dom.containers =
      es.map (fun ke => (ke.2.object.name, errorContainer ke.2)) ∧
    (methods.validate rx s).1.dom.errorFields = es.map (fun ke => ke.2.object.name) ∧
    (∀ ke ∈ es, ke.2.object = s.options.getField ke.1) ∧
    (∀ ke ∈ es, ∀ m, ke.2.messages = [m] → errorContainer ke.2 = .html m) ∧
    (∀ ke ∈ es, 2 ≤ ke.2.messages.length → errorContainer ke.2 = .list ke.2.messages) ∧
    (es = [] → (methods.validate rx s).1.dom = { containers := [], errorFields := [] }) := by
  obtain ⟨_, hwalk, hdom, _⟩ := validate_ok rx s es h
  rw [hdom, renderErrors_eq]
  refine ⟨by simp, by simp, ?_, ?_, ?_, ?_⟩
  · exact validateFields_preserves (objectsFrom s.options.getField) rx
      { s.options with isValid := false } s.options.config
      (fun f _ es0 m es1 h0 h1 => objectsFrom_pushError s.options.getField es0 es1 f m h0 h1)
      [] es (by intro ke hke; simp at hke) hwalk
  · intro ke _ m hm
    simp [errorContainer, hm]
  · intro ke _ hlen
    unfold errorContainer
    split
    · rename_i m hm
      simp [hm] at hlen
    · rfl
  · intro hnil
    simp [hnil]

theorem rendered_blocks_witness :
    (methods.validate (fun _ _ => none) (formWith ""
      [("login", [("notEmpty", .config { message := some "required" })]),
       ("team", [("notEmpty", .config { message := some "required" }),
                 ("length", .config { min := some 3, message := some "too short" })]),
       ("note", [("futureRule", .config {})])])).1.dom.containers =
      [("login", .html "required"), ("team", .list ["required", "too short"])] :=
  (rendered_blocks (fun _ _ => none) (formWith ""
      [("login", [("notEmpty", .config { message := some "required" })]),
       ("team", [("notEmpty", .config { message := some "required" }),
                 ("length", .config { min := some 3, message := some "too short" })]),
       ("note", [("futureRule", .config {})])])
    [("login", { object := ⟨"login", ""⟩, messages := ["required"] }),
     ("team", { object := ⟨"team", ""⟩, messages := ["required", "too short"] })]
    rfl).1

/-! ## The flag and the report -/

theorem afterQueries_isValid (calls : List Query) (s : Engine) :
    methods.isValid (afterQueries calls s) = methods.isValid s := by
  induction calls generalizing s with
  | nil => rfl
  | cons c rest ih =>
    cases c with
    | clear =>
      simp only [afterQueries]
      rw [ih]
      unfold afterClear methods.clear methods.isValid
      cases s.options.form <;> rfl
    | isValid =>
      simp only [afterQueries]
      exact ih s

/-- C16: the validity flag `validate` leaves is true exactly when it completed
with an empty report: a completed pass leaves the flag true if and only if its
report is empty, a pass ended by an exception leaves it false; `clear()` and
`isValid()` calls that follow, in any number and order, do not change the
flag. -/
theorem flag_iff_report_empty (rx : RegExpHost) (s : Engine) (calls : List Query) :
    (methods.isValid (methods.validate rx s).1 = true ↔ (methods.validate rx s).2 = .ok []) ∧
    (∀ es, (methods.validate rx s).2 = .ok es →
      (methods.isValid (methods.validate rx s).1 = true ↔ es = [])) ∧
    (∀ e, (methods.validate rx s).2 = .error e →
      methods.isValid (methods.validate rx s).1 = false) ∧
    (methods.isValid (afterQueries calls (methods.validate rx s).1) = true ↔
      (methods.validate rx s).2 = .ok []) := by
  have hok : ∀ es, (methods.validate rx s).2 = .ok es →
      (methods.isValid (methods.validate rx s).1 = true ↔ es = []) :=
    fun es h => (validate_ok rx s es h).2.2.2
  have herr : ∀ e, (methods.validate rx s).2 = .error e →
      methods.isValid (methods.validate rx s).1 = false := by
    intro e h
    obtain ⟨o, dom⟩ := s
    obtain ⟨form, config, isValid, dflt, getField, onChange⟩ := o
    cases form with
    | plain => rfl
    | jquery =>
      simp only [methods.validate, methods.clear] at h ⊢
      cases hv : validateFields rx ⟨.jquery, config, false, dflt, getField, onChange⟩ []
          config with
      | error e1 => rfl
      | ok es2 =>
        simp only [hv] at h
        split at h <;> simp at h
  have hiff : methods.isValid (methods.validate rx s).1 = true ↔
      (methods.validate rx s).2 = .ok [] := by
    cases hr : (methods.validate rx s).2 with
    | error e => simp [herr e hr]
    | ok es =>
      rw [hok es hr]
      constructor
      · intro h
        rw [h]
      · intro h
        injection h
  refine ⟨hiff, hok, herr, ?_⟩
  rw [afterQueries_isValid]
  exact hiff

/-! ## Initialisation -/

theorem init_options (config : Option CallerConfig) (p : Page) :
    (methods.init config p).engine.options =
      { (match config with
          | some c => extend p.engine.options c
          | none => p.engine.options) with form := .jquery } := by
  unfold methods.init
  simp only []
  split <;> rfl

/-- C12 (as stated, refuted): a caller's object with the key `isValid` set to
true makes `isValid()` return true right after `init`, before any `validate`. -/
theorem init_copies_isValid_key :
    methods.isValid
      (methods.init (some { isValid := some true, config := some [("login", [])] })
        (initialPage fun n => ⟨n, ""⟩)).engine = true ∧
    (instantValidate (fun _ _ => none) .throws (.name "isValid") none
      (instantValidate (fun _ _ => none) .throws
        (.object { isValid := some true, config := some [("login", [])] }) none
        (initialPage fun n => ⟨n, ""⟩)).page).completion = .returned (.bool true) := by
  exact ⟨rfl, rfl⟩

/-- C12 (amended): for every caller's object without the key `isValid`, and for a
call without an object, `isValid()` after `init` on the initial state of the
module and before any `validate` returns false, through the method and through
the entry point alike; a key `isValid` of the caller's object is merged into
`options` like every other key and is then what `isValid()` returns. -/
theorem init_flag_false (rx : RegExpHost) (hook : ErrorHook) (find : String → Field)
    (c : CallerConfig) (h : c.isValid = none) :
    methods.isValid (methods.init (some c) (initialPage find)).engine = false ∧
    methods.isValid (methods.init none (initialPage find)).engine = false ∧
    (instantValidate rx hook (.name "isValid") none
      (instantValidate rx hook (.object c) none (initialPage find)).page).completion
        = .returned (.bool false) ∧
    (instantValidate rx hook (.name "isValid") none
      (instantValidate rx hook .absent none (initialPage find)).page).completion
        = .returned (.bool false) ∧
    (∀ (b : Bool) (c1 : CallerConfig) (p : Page), c1.isValid = some b →
      methods.isValid (methods.init (some c1) p).engine = b) := by
  have h1 : methods.isValid (methods.init (some c) (initialPage find)).engine = false := by
    simp [methods.isValid, init_options, extend, h, initialPage]
  have h2 : methods.isValid (methods.init none (initialPage find)).engine = false := by
    simp [methods.isValid, init_options, initialPage]
  refine ⟨h1, h2, ?_, ?_, ?_⟩
  · simp only [instantValidate]
    simp [h1]
  · simp only [instantValidate]
    simp [h2]
  · intro b c1 p hb
    simp [methods.isValid, init_options, extend, hb]

theorem init_flag_false_witness :
    methods.isValid
      (methods.init (some { config := some [("login", [("notEmpty", .config {})])] })
        (initialPage fun n => ⟨n, ""⟩)).engine = false :=
  (init_flag_false (fun _ _ => none) .throws (fun n => ⟨n, ""⟩)
    { config := some [("login", [("notEmpty", .config {})])] } rfl).1

/-- C14 (as stated, refuted): after `init` with a default message and a second
`init` with an empty object the default message is still the one of the first
call, while a fresh engine initialised with the empty object has the engine's
default; likewise a configuration of the first call stays when the second
object has no key `config`. -/
theorem reinit_keeps_earlier_options :
    (methods.init (some {})
      (methods.init (some { defaultErrorMessage := some "Required" })
        (initialPage fun n => ⟨n, ""⟩))).engine.options.defaultErrorMessage = "Required" ∧
    (methods.init (some {})
      (initialPage fun n => ⟨n, ""⟩)).engine.options.defaultErrorMessage
        = "Validation result negative" ∧
    ((methods.init (some { defaultErrorMessage := some "Other" })
      (methods.init (some { config := some [("login", [])] })
        (initialPage fun n => ⟨n, ""⟩))).engine.options.config.map Prod.fst = ["login"] ∧
     (methods.init (some { defaultErrorMessage := some "Other" })
      (initialPage fun n => ⟨n, ""⟩)).engine.options.config.map Prod.fst = []) := by
  exact ⟨rfl, rfl, rfl, rfl⟩

/-- C14 (amended): a second `init` lays the keys of its object over the options
the first one left.  The options after `init` with `c1` and then `c2` are those
of one `init` with the keys of `c2` laid over the keys of `c1`; a configuration
given by `c2` replaces the earlier one as a whole, whatever fields that had; an
option `c2` leaves unset keeps the value it had after the first call, and the
validity flag is kept as well unless `c2` sets it. -/
theorem reinit_overlays (c1 c2 : CallerConfig) (p : Page) :
    (methods.init (some c2) (methods.init (some c1) p)).engine.options =
      (methods.init (some (overlay c1 c2)) p).engine.options ∧
    (∀ config, c2.config = some config →
      (methods.init (some c2) (methods.init (some c1) p)).engine.options.config = config) ∧
    (c2.config = none →
      (methods.init (some c2) (methods.init (some c1) p)).engine.options.config =
        (methods.init (some c1) p).engine.options.config) ∧
    (c2.defaultErrorMessage = none →
      (methods.init (some c2) (methods.init (some c1) p)).engine.options.defaultErrorMessage =
        (methods.init (some c1) p).engine.options.defaultErrorMessage) ∧
    (c2.isValid = none →
      methods.isValid (methods.init (some c2) (methods.init (some c1) p)).engine =
        methods.isValid (methods.init (some c1) p).engine) := by
  refine ⟨?_, ?_, ?_, ?_, ?_⟩
  · simp only [init_options, extend, overlay]
    cases c2.config <;> cases c2.isValid <;> cases c2.defaultErrorMessage <;>
      cases c2.getField <;> cases c2.onChange <;> rfl
  · intro config h
    simp [init_options, extend, h]
  · intro h
    simp [init_options, extend, h]
  · intro h
    simp [init_options, extend, h]
  · intro h
    simp [methods.isValid, init_options, extend, h]

/-! ## The entry point -/

/-- C13: the first argument `toString` names none of the five operations, yet
`methods[method]` resolves it to the member inherited from `Object.prototype`:
the call hands nothing to `$.error` and returns the string of a plain object
instead of `false`; with jQuery's stock `$.error` a name that resolves to
nothing ends with the `Error` that function throws, not with `false`. -/
theorem inherited_method_name_dispatched (rx : RegExpHost) (hook : ErrorHook) (p : Page) :
    "toString" ∉ methodNames ∧
    (instantValidate rx hook (.name "toString") none p).reported = [] ∧
    (instantValidate rx hook (.name "toString") none p).completion
      = .returned (.str "[object Object]") ∧
    (instantValidate rx .throws (.name "validat") none p).completion
      = .raised "Method named validat does not exists in jQuery.instantValidate" := by
  refine ⟨by decide, rfl, rfl, rfl⟩

/-- A first argument that is a non-empty string and resolves to nothing (neither
an operation nor a member of `Object.prototype`) is handed to `$.error` with
the message of the source, no operation runs and the page stays as it is; the
call returns `false` when `$.error` returns and ends with its `Error` when it
throws. -/
theorem unknown_method_reported (rx : RegExpHost) (hook : ErrorHook) (s : String)
    (rest : Option RestArg) (p : Page)
    (hop : s ∉ methodNames) (hproto : s ∉ objectPrototypeKeys) (hne : s ≠ "") :
    (instantValidate rx hook (.name s) rest p).page = p ∧
    (instantValidate rx hook (.name s) rest p).reported =
      ["Method named " ++ s ++ " does not exists in jQuery.instantValidate"] ∧
    (hook = .returns →
      (instantValidate rx hook (.name s) rest p).completion = .returned (.bool false)) ∧
    (hook = .throws →
      (instantValidate rx hook (.name s) rest p).completion =
        .raised ("Method named " ++ s ++ " does not exists in jQuery.instantValidate")) := by
  simp only [methodNames, List.mem_cons, List.mem_singleton, List.mem_nil_iff, or_false,
    not_or] at hop
  obtain ⟨h1, h2, h3, h4, h5⟩ := hop
  simp only [instantValidate, h1, h2, h3, h4, h5, hproto, hne, if_false]
  refine ⟨trivial, trivial, ?_, ?_⟩
  · intro h
    subst h
    rfl
  · intro h
    subst h
    rfl

theorem unknown_method_reported_witness :
    (instantValidate (fun _ _ => none) .returns (.name "validat") none
      (initialPage fun n => ⟨n, ""⟩)).reported =
      ["Method named " ++ "validat" ++ " does not exists in jQuery.instantValidate"] :=
  (unknown_method_reported (fun _ _ => none) .returns "validat" none
    (initialPage fun n => ⟨n, ""⟩) (by decide) (by decide) (by decide)).2.1

/-- An object or no first argument goes to `init`, and the name of an operation
goes to that operation with the remaining arguments. -/
theorem entry_point_dispatch (rx : RegExpHost) (hook : ErrorHook) (rest : Option RestArg)
    (p : Page) :
    (∀ c, (instantValidate rx hook (.object c) rest p).page = methods.init (some c) p) ∧
    (instantValidate rx hook .absent rest p).page = methods.init none p ∧
    (instantValidate rx hook (.name "init") rest p).page = methods.init (restConfig rest) p ∧
    (instantValidate rx hook (.name "validate") rest p).page.engine
      = (methods.validate rx p.engine).1 ∧
    (instantValidate rx hook (.name "clear") rest p).page.engine = afterClear p.engine ∧
    (instantValidate rx hook (.name "isValid") rest p).completion
      = .returned (.bool (methods.isValid p.engine)) ∧
    (instantValidate rx hook (.name "setOnChange") rest p).page
      = methods.setOnChange (restCallback rest) p := by
  refine ⟨fun c => rfl, rfl, rfl, rfl, ?_, rfl, rfl⟩
  simp only [instantValidate, afterClear]
  simp
  cases methods.clear p.engine <;> rfl

end InstantValidate
